import Mathlib

set_option autoImplicit false

/-!
Verification of the jira-release command line tool (src/jira_releases.py).

The Python program is shallowly embedded.  JSON values are the inductive
type `JVal`; Python dictionary access (`dict.get`) and the other dynamic
operations the script uses are functions returning `Except PyErr`; the
`requests` layer is an oracle `Network` mapping a request URL to one
classified outcome; `json.dumps(..., indent=2)` and `json.loads` are
modelled by `pyJsonDumps` and `pyJsonLoads`.
-/

namespace JiraRel

/-- JSON values as handled by the Python `json` module in the source.
Numbers are restricted to integers (the payloads the program shapes carry
no fractional literals), and objects are ordered field lists, matching
the insertion order of Python dictionaries. -/
inductive JVal where
  | null
  | bool (b : Bool)
  | num (n : Int)
  | str (s : String)
  | arr (elems : List JVal)
  | obj (fields : List (String × JVal))

/-- Errors a modelled Python expression can raise.  `attributeError`
models calling `.get` on a value that is not a dictionary, `typeError`
models an unsupported built-in operation, and `notModelled` marks
operations this embedding leaves out (none is reachable from a
well-shaped payload). -/
inductive PyErr where
  | attributeError
  | typeError
  | notModelled
deriving DecidableEq

/-- Python `v.get(k, dflt)`: on a dictionary, the stored value at `k` or
`dflt` when the key is absent; on any other value an `AttributeError`
is raised, since `.get` is a dict method. -/
def pyGet (v : JVal) (k : String) (dflt : JVal) : Except PyErr JVal :=
  match v with
  | .obj fields => .ok ((fields.lookup k).getD dflt)
  | _ => .error .attributeError

/-- Python truthiness of a JSON value: `None`, `False`, `0`, the empty
string, the empty list and the empty dict are falsy. -/
def pyTruthy : JVal → Bool
  | .null => false
  | .bool b => b
  | .num n => n != 0
  | .str s => !s.isEmpty
  | .arr elems => !elems.isEmpty
  | .obj fields => !fields.isEmpty

/-- Python `len`: defined for strings (counting code points), lists and
dicts; `TypeError` otherwise. -/
def pyLen : JVal → Except PyErr Nat
  | .str s => .ok s.length
  | .arr elems => .ok elems.length
  | .obj fields => .ok fields.length
  | _ => .error .typeError

/-- Python `str(v)` for the scalar values the table rows can contain.
The `repr`-style rendering of nested containers is not modelled; no
well-shaped payload reaches it. -/
def pyStr : JVal → Except PyErr String
  | .str s => .ok s
  | .num n => .ok (toString n)
  | .bool b => .ok (if b then "True" else "False")
  | .null => .ok "None"
  | _ => .error .notModelled

/-- Pad a string with spaces on the right up to a minimum width, the
effect of the format specification `<w` on a string. -/
def padRight (s : String) (w : Nat) : String :=
  s ++ String.mk (List.replicate (w - s.length) ' ')

/-- Python `format(v, "<w")` for a JSON scalar: strings pad; integers
render in decimal and pad (`bool` delegates its formatting to `int`, so
`True` renders as `1`); `None` and containers raise `TypeError`. -/
def pyFormatLeft (v : JVal) (w : Nat) : Except PyErr String :=
  match v with
  | .str s => .ok (padRight s w)
  | .num n => .ok (padRight (toString n) w)
  | .bool b => .ok (padRight (if b then "1" else "0") w)
  | _ => .error .typeError

/-- Python slicing `s[:n]` on a string. -/
def pySliceTo (s : String) (n : Nat) : String :=
  String.mk (s.data.take n)

/-- Concatenation of the images of a map over a list.  Defined locally so
the development carries its own unfolding lemmas. -/
def listFlat {α β : Type} (f : α → List β) : List α → List β
  | [] => []
  | a :: as => f a ++ listFlat f as

/-! ### The model of `json.dumps(..., indent=2)` -/

/-- Indentation prefix emitted at nesting level `lvl`. -/
def jpad (lvl : Nat) : List Char := List.replicate (2 * lvl) ' '

/-- Lowercase hexadecimal digit, as the CPython JSON encoder writes
`\uXXXX` escapes. -/
def hexDigitChar (n : Nat) : Char :=
  if n < 10 then Char.ofNat (48 + n) else Char.ofNat (87 + n)

/-- Four-digit hexadecimal rendering of `n < 0x10000`. -/
def hex4 (n : Nat) : List Char :=
  [hexDigitChar (n / 4096 % 16), hexDigitChar (n / 256 % 16),
   hexDigitChar (n / 16 % 16), hexDigitChar (n % 16)]

/-- CPython `json` escaping of one character with `ensure_ascii=True`:
printable ASCII other than the quote and the backslash passes through,
the two-character escapes cover the usual control characters, and every
other code point becomes `\uXXXX` (a surrogate pair beyond the basic
multilingual plane). -/
def escChar (c : Char) : List Char :=
  if c = '"' then ['\\', '"']
  else if c = '\\' then ['\\', '\\']
  else if c = '\x08' then ['\\', 'b']
  else if c = '\x0c' then ['\\', 'f']
  else if c = '\n' then ['\\', 'n']
  else if c = '\x0d' then ['\\', 'r']
  else if c = '\t' then ['\\', 't']
  else if 0x20 ≤ c.toNat ∧ c.toNat ≤ 0x7e then [c]
  else if c.toNat < 0x10000 then '\\' :: 'u' :: hex4 c.toNat
  else
    ('\\' :: 'u' :: hex4 (0xd800 + (c.toNat - 0x10000) / 0x400)) ++
      ('\\' :: 'u' :: hex4 (0xdc00 + (c.toNat - 0x10000) % 0x400))

/-- The JSON quoting of a string: quote, escaped characters, quote. -/
def quoteChars (s : String) : List Char :=
  '"' :: (listFlat escChar s.data ++ ['"'])

/-- Decimal digits of `n`, most significant first, accumulated onto
`acc`; the recursion mirrors repeated division by ten. -/
def natDigitsRec (n : Nat) (acc : List Char) : List Char :=
  if n < 10 then Char.ofNat (48 + n) :: acc
  else natDigitsRec (n / 10) (Char.ofNat (48 + n % 10) :: acc)
termination_by n
decreasing_by exact Nat.div_lt_self (by omega) (by omega)

/-- Decimal digits of a natural number. -/
def digitsOf (n : Nat) : List Char := natDigitsRec n []

/-- Decimal rendering of an integer, as Python prints `int`. -/
def intChars (n : Int) : List Char :=
  if n < 0 then '-' :: digitsOf n.natAbs else digitsOf n.toNat

mutual
/-- The characters `json.dumps(v, indent=2)` produces for `v` when `v`
sits at nesting level `lvl`. -/
def dumpC (lvl : Nat) (v : JVal) : List Char :=
  match v with
  | .null => "null".data
  | .bool true => "true".data
  | .bool false => "false".data
  | .num n => intChars n
  | .str s => quoteChars s
  | .arr [] => ['[', ']']
  | .arr (x :: xs) =>
      '[' :: '\n' :: (jpad (lvl + 1) ++ dumpBody (lvl + 1) x xs) ++
        '\n' :: (jpad lvl ++ [']'])
  | .obj [] => ['\x7b', '\x7d']
  | .obj (f :: fs) =>
      '\x7b' :: '\n' :: (jpad (lvl + 1) ++ dumpFields (lvl + 1) f fs) ++
        '\n' :: (jpad lvl ++ ['\x7d'])
termination_by sizeOf v
decreasing_by all_goals simp_wf; all_goals omega

/-- Array items, separated by a comma, a newline and the indentation of
the following item. -/
def dumpBody (lvl : Nat) (x : JVal) (l : List JVal) : List Char :=
  match l with
  | [] => dumpC lvl x
  | y :: ys => dumpC lvl x ++ ',' :: '\n' :: (jpad lvl ++ dumpBody lvl y ys)
termination_by sizeOf x + sizeOf l
decreasing_by all_goals simp_wf; all_goals omega

/-- Object entries `"key": value`, separated like array items. -/
def dumpFields (lvl : Nat) (f : String × JVal)
    (l : List (String × JVal)) : List Char :=
  match l with
  | [] => quoteChars f.1 ++ ':' :: ' ' :: dumpC lvl f.2
  | g :: gs => (quoteChars f.1 ++ ':' :: ' ' :: dumpC lvl f.2) ++
      ',' :: '\n' :: (jpad lvl ++ dumpFields lvl g gs)
termination_by sizeOf f + sizeOf l
decreasing_by
  all_goals simp_wf
  all_goals first
  | omega
  | (obtain ⟨k, w⟩ := f; simp; omega)
end

/-- `json.dumps(v, indent=2)`. -/
def pyJsonDumps (v : JVal) : String := String.mk (dumpC 0 v)

/-! ### The model of `json.loads` -/

/-- JSON whitespace accepted between tokens. -/
def isWs (c : Char) : Bool := c = ' ' || c = '\t' || c = '\n' || c = '\x0d'

def skipWs (cs : List Char) : List Char := cs.dropWhile isWs

/-- Value of one hexadecimal digit, either case. -/
def hexVal (c : Char) : Option Nat :=
  if '0' ≤ c ∧ c ≤ '9' then some (c.toNat - 48)
  else if 'a' ≤ c ∧ c ≤ 'f' then some (c.toNat - 87)
  else if 'A' ≤ c ∧ c ≤ 'F' then some (c.toNat - 55)
  else none

/-- Value of the four digits of a `\uXXXX` escape. -/
def hex4Val (a b c d : Char) : Option Nat :=
  match hexVal a, hexVal b, hexVal c, hexVal d with
  | some va, some vb, some vc, some vd =>
      some (va * 4096 + vb * 256 + vc * 16 + vd)
  | _, _, _, _ => none

/-- The single-character string escapes of the JSON grammar. -/
def escDecode (c : Char) : Option Char :=
  if c = '"' then some '"'
  else if c = '\\' then some '\\'
  else if c = '/' then some '/'
  else if c = 'b' then some '\x08'
  else if c = 'f' then some '\x0c'
  else if c = 'n' then some '\n'
  else if c = 'r' then some '\x0d'
  else if c = 't' then some '\t'
  else none

/-- String-body scanner of the JSON decoder: consumes the characters of a
quoted string after the opening quote, resolving escapes, until the
closing quote; `acc` holds the characters read so far and the fuel (one
unit per decoded character, as supplied by the callers) only bounds the
loop.  Pairs of surrogate escapes combine into one code point; a lone
surrogate escape is rejected (a Lean `Char` cannot hold it, and the
encoder never emits one). -/
def parseStrAux : Nat → List Char → List Char → Option (String × List Char)
  | 0, _, _ => none
  | fuel + 1, cs, acc =>
    match cs with
    | [] => none
    | c :: r =>
      if c = '"' then some (String.mk acc, r)
      else if c = '\\' then
        match r with
        | [] => none
        | e :: r1 =>
          if e = 'u' then
            match r1 with
            | a :: b :: c2 :: d :: r2 =>
              match hex4Val a b c2 d with
              | none => none
              | some n =>
                if n < 0xd800 ∨ 0xe000 ≤ n then
                  parseStrAux fuel r2 (acc ++ [Char.ofNat n])
                else if n < 0xdc00 then
                  match r2 with
                  | s1 :: s2 :: a2 :: b2 :: c3 :: d2 :: r3 =>
                    if s1 = '\\' ∧ s2 = 'u' then
                      match hex4Val a2 b2 c3 d2 with
                      | none => none
                      | some m =>
                        if 0xdc00 ≤ m ∧ m < 0xe000 then
                          parseStrAux fuel r3 (acc ++
                            [Char.ofNat (0x10000 + (n - 0xd800) * 0x400 + (m - 0xdc00))])
                        else none
                    else none
                  | _ => none
                else none
            | _ => none
          else
            match escDecode e with
            | some ec => parseStrAux fuel r1 (acc ++ [ec])
            | none => none
      else if c.toNat < 0x20 then none
      else parseStrAux fuel r (acc ++ [c])

/-- Greedy decimal scanner: reads digits, accumulating their value. -/
def parseNatAux : List Char → Nat → Nat × List Char
  | [], acc => (acc, [])
  | c :: cs, acc =>
    if c.isDigit then parseNatAux cs (acc * 10 + (c.toNat - 48))
    else (acc, c :: cs)

mutual
/-- Fuel-indexed JSON value parser, the model of `json.loads`.  The fuel
only bounds the depth of mutual calls and is not part of the grammar.
Numbers are restricted to integers, as in the encoder. -/
def parseVal : Nat → List Char → Option (JVal × List Char)
  | 0, _ => none
  | fuel + 1, cs0 =>
    match skipWs cs0 with
    | [] => none
    | c :: r =>
      if c = 'n' then
        match r with
        | 'u' :: 'l' :: 'l' :: r2 => some (.null, r2)
        | _ => none
      else if c = 't' then
        match r with
        | 'r' :: 'u' :: 'e' :: r2 => some (.bool true, r2)
        | _ => none
      else if c = 'f' then
        match r with
        | 'a' :: 'l' :: 's' :: 'e' :: r2 => some (.bool false, r2)
        | _ => none
      else if c = '"' then
        match parseStrAux (r.length + 1) r [] with
        | some (s, r2) => some (.str s, r2)
        | none => none
      else if c = '-' then
        match r with
        | d :: _ =>
          if d.isDigit then
            let p := parseNatAux r 0
            some (.num (-(Int.ofNat p.1)), p.2)
          else none
        | [] => none
      else if c.isDigit then
        let p := parseNatAux (c :: r) 0
        some (.num (Int.ofNat p.1), p.2)
      else if c = '[' then
        let r1 := skipWs r
        if r1.head? = some ']' then some (.arr [], r1.tail)
        else
          match parseItems fuel r1 [] with
          | some (l, r2) => some (.arr l, r2)
          | none => none
      else if c = '\x7b' then
        let r1 := skipWs r
        if r1.head? = some '\x7d' then some (.obj [], r1.tail)
        else
          match parseFields fuel r1 [] with
          | some (fs, r2) => some (.obj fs, r2)
          | none => none
      else none

/-- Comma-separated values inside an array, up to the closing bracket. -/
def parseItems : Nat → List Char → List JVal → Option (List JVal × List Char)
  | 0, _, _ => none
  | fuel + 1, cs, acc =>
    match parseVal fuel cs with
    | none => none
    | some (v, r) =>
      let r1 := skipWs r
      if r1.head? = some ',' then parseItems fuel r1.tail (acc ++ [v])
      else if r1.head? = some ']' then some (acc ++ [v], r1.tail)
      else none

/-- Comma-separated `"key": value` entries inside an object, up to the
closing brace. -/
def parseFields : Nat → List Char → List (String × JVal) →
    Option (List (String × JVal) × List Char)
  | 0, _, _ => none
  | fuel + 1, cs, acc =>
    match skipWs cs with
    | c :: r =>
      if c = '"' then
        match parseStrAux (r.length + 1) r [] with
        | none => none
        | some (k, r1) =>
          let r2 := skipWs r1
          if r2.head? = some ':' then
            match parseVal fuel r2.tail with
            | none => none
            | some (v, r3) =>
              let r4 := skipWs r3
              if r4.head? = some ',' then parseFields fuel r4.tail (acc ++ [(k, v)])
              else if r4.head? = some '\x7d' then some (acc ++ [(k, v)], r4.tail)
              else none
          else none
      else none
    | [] => none
end

/-- The model of `json.loads`: parse one value with ample fuel, then
require only whitespace to remain. -/
def pyJsonLoads (s : String) : Option JVal :=
  match parseVal (s.data.length + 1) s.data with
  | some (v, rest) => if (skipWs rest).isEmpty then some v else none
  | none => none

mutual
/-- Parser fuel sufficient for a value (proved below). -/
def fuelFor : JVal → Nat
  | .arr l => 1 + fuelItems l
  | .obj fs => 1 + fuelFields fs
  | .null => 1
  | .bool _ => 1
  | .num _ => 1
  | .str _ => 1

def fuelItems : List JVal → Nat
  | [] => 1
  | x :: xs => 1 + fuelFor x + fuelItems xs

def fuelFields : List (String × JVal) → Nat
  | [] => 1
  | f :: fs => 1 + fuelFor f.2 + fuelFields fs
end

/-! ### The response formatter (display_issues, display_versions) -/

/-- A string of `n` dashes, Python `"-" * n`. -/
def dashes (n : Nat) : String := String.mk (List.replicate n '-')

/-- The summary column value: Python lines 149-153, the lookup with
default `"N/A"`, then `if len(summary) > 70: summary = summary[:67] + "..."`,
then the bare string interpolation of the result. -/
def summaryDisplay (summary0 : JVal) : Except PyErr String := do
  let n ← pyLen summary0
  if 70 < n then
    match summary0 with
    | .str s => .ok (pySliceTo s 67 ++ "...")
    | _ => .error .typeError
  else pyStr summary0

/-- One text row of `display_issues`, Python lines 144-155. -/
def issueRow (issue : JVal) : Except PyErr String := do
  let key ← pyGet issue "key" (.str "N/A")
  let fields ← pyGet issue "fields" (.obj [])
  let itObj ← pyGet fields "issuetype" (.obj [])
  let issueType ← pyGet itObj "name" (.str "N/A")
  let stObj ← pyGet fields "status" (.obj [])
  let status ← pyGet stObj "name" (.str "N/A")
  let prObj ← pyGet fields "priority" (.obj [])
  let priority ← pyGet prObj "name" (.str "N/A")
  let summary0 ← pyGet fields "summary" (.str "N/A")
  let summary ← summaryDisplay summary0
  let c1 ← pyFormatLeft key 15
  let c2 ← pyFormatLeft issueType 15
  let c3 ← pyFormatLeft status 15
  let c4 ← pyFormatLeft priority 10
  .ok (c1 ++ " " ++ c2 ++ " " ++ c3 ++ " " ++ c4 ++ " " ++ summary)

/-- The literal column header of the issues table, line 141. -/
def issuesHeader : String :=
  padRight "Key" 15 ++ " " ++ padRight "Type" 15 ++ " " ++ padRight "Status" 15 ++
    " " ++ padRight "Priority" 10 ++ " " ++ "Summary"

/-- `display_issues` (lines 122-155): the list of printed lines, or the
uncaught Python exception.  Lines already printed when an exception is
raised mid-loop are not tracked; iteration over a truthy non-list value
is not modelled. -/
def display_issues (issues : JVal) (output_format : String) :
    Except PyErr (List String) :=
  if output_format == "json" then .ok [pyJsonDumps issues]
  else if !pyTruthy issues then .ok ["No issues found for this release."]
  else do
    let n ← pyLen issues
    let items ← match issues with
      | .arr xs => Except.ok xs
      | _ => Except.error PyErr.notModelled
    let rows ← items.mapM issueRow
    .ok (("Found " ++ toString n ++ " issues:") :: dashes 120 :: issuesHeader ::
      dashes 120 :: rows)

/-- The sort key of one version, the lambda of line 178:
`v.get("releaseDate", "9999-99-99") if v.get("releaseDate") else "9999-99-99"`.
A present, truthy, non-string date would make Python `sorted` compare a
non-string key against string keys (raising `TypeError` whenever such a
comparison happens); the model conservatively rejects such keys. -/
def versionKey (v : JVal) : Except PyErr String := do
  let d ← pyGet v "releaseDate" .null
  if pyTruthy d then
    match d with
    | .str s => .ok s
    | _ => .error .notModelled
  else .ok "9999-99-99"

/-- Stable insertion of a keyed version into a sorted keyed list: the new
pair goes immediately before the first strictly greater key, hence after
every earlier entry with an equal key, as Python `sorted` keeps elements
with equal keys in input order. -/
def insertKeyed (p : String × JVal) : List (String × JVal) → List (String × JVal)
  | [] => [p]
  | q :: qs => if p.1 ≤ q.1 then p :: q :: qs else q :: insertKeyed p qs

/-- Stable sort by precomputed key (insertion sort), the model of Python
`sorted(versions, key=...)`. -/
def sortKeyed : List (String × JVal) → List (String × JVal)
  | [] => []
  | p :: ps => insertKeyed p (sortKeyed ps)

/-- One text row of `display_versions`, Python lines 186-193. -/
def versionRow (version : JVal) : Except PyErr String := do
  let vid ← pyGet version "id" (.str "N/A")
  let name ← pyGet version "name" (.str "N/A")
  let releasedV ← pyGet version "released" (.bool false)
  let released := if pyTruthy releasedV then "Yes" else "No"
  let releaseDate ← pyGet version "releaseDate" (.str "N/A")
  let description ← pyGet version "description" (.str "")
  let c1 ← pyFormatLeft vid 10
  let c2 ← pyFormatLeft name 20
  let c3 := padRight released 10
  let c4 ← pyFormatLeft releaseDate 12
  let c5 ← pyStr description
  .ok (c1 ++ " " ++ c2 ++ " " ++ c3 ++ " " ++ c4 ++ " " ++ c5)

/-- The literal column header of the versions table, line 183. -/
def versionsHeader : String :=
  padRight "ID" 10 ++ " " ++ padRight "Name" 20 ++ " " ++ padRight "Released" 10 ++
    " " ++ padRight "Release Date" 12 ++ " " ++ "Description"

/-- `display_versions` (lines 158-193). -/
def display_versions (versions : JVal) (output_format : String) :
    Except PyErr (List String) :=
  if output_format == "json" then .ok [pyJsonDumps versions]
  else if !pyTruthy versions then .ok ["No releases found for this project."]
  else do
    let items ← match versions with
      | .arr xs => Except.ok xs
      | _ => Except.error PyErr.notModelled
    let keys ← items.mapM versionKey
    let sortedVersions := (sortKeyed (keys.zip items)).map Prod.snd
    let n ← pyLen versions
    let rows ← sortedVersions.mapM versionRow
    .ok (("Found " ++ toString n ++ " releases:") :: dashes 80 :: versionsHeader ::
      dashes 80 :: rows)

/-! ### The HTTP client wrapper -/

/-- One classified outcome of `requests.get` followed by
`raise_for_status`: success with a parsed JSON body, an `HTTPError`
carrying the non-2xx status and its printed rendering, a connection
failure, a timeout, or any other request exception with its message. -/
inductive ReqResult where
  | ok (body : JVal)
  | httpError (status : Nat) (msg : String)
  | connError
  | timeout
  | reqError (msg : String)

/-- The network as an oracle from request URL to outcome.  Credentials
and the Accept header do not vary within a run, so they are left out of
the oracle's domain. -/
abbrev Network := String → ReqResult

/-- A single quote character, kept out of string literals. -/
def sq : String := String.mk [Char.ofNat 39]

/-- Python `jira_url[:-1] if jira_url.endswith("/") ...` as performed by
lines 25-26 and 79-80: drop one trailing slash. -/
def stripSlash (u : String) : String :=
  if u.data.getLast? = some '/' then String.mk u.data.dropLast else u

/-- The endpoint of `get_project_versions`, line 29. -/
def versionsEndpoint (jira_url project_key : String) : String :=
  stripSlash jira_url ++ "/rest/api/2/project/" ++ project_key ++ "/versions"

/-- Characters `urllib.parse.quote` keeps with the default `safe="/"`:
ASCII alphanumerics, `_.-~` and the slash. -/
def quoteSafe (c : Char) : Bool :=
  c.isAlpha || c.isDigit || c = '_' || c = '.' || c = '-' || c = '~' || c = '/'

/-- UTF-8 bytes of one code point. -/
def utf8Bytes (n : Nat) : List Nat :=
  if n < 0x80 then [n]
  else if n < 0x800 then [0xc0 + n / 0x40, 0x80 + n % 0x40]
  else if n < 0x10000 then
    [0xe0 + n / 0x1000, 0x80 + n / 0x40 % 0x40, 0x80 + n % 0x40]
  else
    [0xf0 + n / 0x40000, 0x80 + n / 0x1000 % 0x40, 0x80 + n / 0x40 % 0x40,
     0x80 + n % 0x40]

/-- Uppercase hexadecimal digit, as `quote` writes percent escapes. -/
def hexUpperDigit (n : Nat) : Char :=
  if n < 10 then Char.ofNat (48 + n) else Char.ofNat (55 + n)

/-- `urllib.parse.quote`: safe characters pass through, every other
character becomes the uppercase percent-encoding of its UTF-8 bytes. -/
def pyQuote (s : String) : String :=
  String.mk (listFlat
    (fun c =>
      if quoteSafe c then [c]
      else listFlat (fun b => ['%', hexUpperDigit (b / 16), hexUpperDigit (b % 16)])
        (utf8Bytes c.toNat))
    s.data)

/-- The JQL query string of line 83. -/
def jqlQuery (project_key version_id : String) : String :=
  "project = " ++ project_key ++ " AND fixVersion = " ++ version_id ++
    " ORDER BY key ASC"

/-- The endpoint of `get_issues_for_version`, lines 84-87. -/
def searchEndpoint (jira_url project_key version_id : String) : String :=
  stripSlash jira_url ++ "/rest/api/2/search?jql=" ++
    pyQuote (jqlQuery project_key version_id) ++ "&maxResults=1000"

/-- Outcome of one fetch helper: the parsed body handed back to `main`, a
`sys.exit(1)` after printing the listed diagnostics, or an uncaught
Python exception. -/
inductive FetchResult where
  | ok (body : JVal)
  | exit1 (msgs : List String)
  | uncaught (e : PyErr)

/-- `get_project_versions` (lines 11-61): one GET to the versions
endpoint; every classified error prints its diagnostics and exits 1. -/
def get_project_versions (jira_url project_key username api_token : String)
    (net : Network) : FetchResult :=
  match net (versionsEndpoint jira_url project_key) with
  | .ok body => .ok body
  | .httpError status msg =>
      .exit1 (("HTTP Error: " ++ msg) ::
        (if status == 401 then
          ["Authentication failed. Please check your username and API token."]
         else if status == 403 then
          ["You don" ++ sq ++ "t have permission to access this resource."]
         else if status == 404 then
          ["Project " ++ sq ++ project_key ++ sq ++ " not found."]
         else []))
  | .connError => .exit1 ["Connection Error: Failed to connect to the Jira server."]
  | .timeout => .exit1 ["Timeout Error: The request timed out."]
  | .reqError msg => .exit1 ["Error: " ++ msg]

/-- `get_issues_for_version` (lines 64-119): one GET to the search
endpoint; on success the `issues` member of the body, or `[]` when that
key is absent (`response.json().get("issues", [])`, an uncaught
`AttributeError` on a non-dict body). -/
def get_issues_for_version
    (jira_url project_key version_id username api_token : String)
    (net : Network) : FetchResult :=
  match net (searchEndpoint jira_url project_key version_id) with
  | .ok body =>
      match pyGet body "issues" (.arr []) with
      | .ok issues => .ok issues
      | .error e => .uncaught e
  | .httpError status msg =>
      .exit1 (("HTTP Error: " ++ msg) ::
        (if status == 401 then
          ["Authentication failed. Please check your username and API token."]
         else if status == 403 then
          ["You don" ++ sq ++ "t have permission to access this resource."]
         else if status == 400 then
          ["Bad request: Invalid JQL query or parameters."]
         else []))
  | .connError => .exit1 ["Connection Error: Failed to connect to the Jira server."]
  | .timeout => .exit1 ["Timeout Error: The request timed out."]
  | .reqError msg => .exit1 ["Error: " ++ msg]

/-! ### The CLI driver -/

/-- Parsed command-line arguments.  argparse restricts `format` to
`text`/`json` with default `text`; `release_id` defaults to `None` and
`list_issues` to `False`. -/
structure Args where
  project_key : String
  url : String
  user : String
  token : String
  format : String
  release_id : Option String
  list_issues : Bool

/-- Python truthiness of `args.release_id`: `None` and the empty string
are falsy. -/
def pyTruthyOptStr : Option String → Bool
  | none => false
  | some s => !s.isEmpty

/-- The observable calls of one run. -/
inductive Call where
  | fetchVersions (url : String)
  | fetchIssues (url : String)
  | renderVersions
  | renderIssues
deriving DecidableEq

/-- Console line of an uncaught exception traceback. -/
def pyTraceback : PyErr → String
  | .attributeError => "Traceback (most recent call last): AttributeError"
  | .typeError => "Traceback (most recent call last): TypeError"
  | .notModelled => "Traceback (most recent call last): <not modelled>"

/-- `main` (lines 196-215): dispatch on
`if args.release_id and args.list_issues` to one fetch and one render.
The result lists the calls made, the printed lines and the exit status;
an uncaught exception terminates the interpreter with status 1. -/
def runMain (args : Args) (net : Network) : List Call × List String × Nat :=
  if pyTruthyOptStr args.release_id && args.list_issues then
    let e := searchEndpoint args.url args.project_key (args.release_id.getD "")
    match get_issues_for_version args.url args.project_key
        (args.release_id.getD "") args.user args.token net with
    | .exit1 msgs => ([.fetchIssues e], msgs, 1)
    | .uncaught exn => ([.fetchIssues e], [pyTraceback exn], 1)
    | .ok issues =>
      match display_issues issues args.format with
      | .ok lines => ([.fetchIssues e, .renderIssues], lines, 0)
      | .error exn => ([.fetchIssues e, .renderIssues], [pyTraceback exn], 1)
  else
    let e := versionsEndpoint args.url args.project_key
    match get_project_versions args.url args.project_key args.user
        args.token net with
    | .exit1 msgs => ([.fetchVersions e], msgs, 1)
    | .uncaught exn => ([.fetchVersions e], [pyTraceback exn], 1)
    | .ok versions =>
      match display_versions versions args.format with
      | .ok lines => ([.fetchVersions e, .renderVersions], lines, 0)
      | .error exn => ([.fetchVersions e, .renderVersions], [pyTraceback exn], 1)

/-- Is this observable call an HTTP request? -/
def isFetch : Call → Bool
  | .fetchVersions _ => true
  | .fetchIssues _ => true
  | .renderVersions => false
  | .renderIssues => false

/-- Did `requests.get` end in one of the classified error outcomes? -/
def isReqError : ReqResult → Bool
  | .ok _ => false
  | .httpError _ _ => true
  | .connError => true
  | .timeout => true
  | .reqError _ => true

/-! ### Shapes of well-formed payload entities -/

/-- The named field is absent or holds a string. -/
def okStrField (fs : List (String × JVal)) (k : String) : Bool :=
  match fs.lookup k with
  | none => true
  | some (.str _) => true
  | some _ => false

/-- The string stored at a field, or a default when absent. -/
def strFieldD (fs : List (String × JVal)) (k : String) (dflt : String) : String :=
  match fs.lookup k with
  | some (.str s) => s
  | _ => dflt

/-- A `Version` entity of the data model: a JSON object whose `id`,
`name`, `releaseDate` and `description` members, when present, are
strings (`released` may hold anything, only its truthiness is used). -/
def WellShapedVersion : JVal → Bool
  | .obj fs =>
      okStrField fs "id" && okStrField fs "name" &&
      okStrField fs "releaseDate" && okStrField fs "description"
  | _ => false

/-- The named field is absent or holds an object whose `name` member is
absent or a string. -/
def okNameObj (gs : List (String × JVal)) (k : String) : Bool :=
  match gs.lookup k with
  | none => true
  | some (.obj hs) => okStrField hs "name"
  | some _ => false

/-- The `name` member of a nested field object, with the `N/A` default at
either level of absence. -/
def nameFieldD (gs : List (String × JVal)) (k : String) : String :=
  match gs.lookup k with
  | some (.obj hs) => strFieldD hs "name" "N/A"
  | _ => "N/A"

/-- The members of the `fields` object of an issue (empty when absent). -/
def fieldsOf (fs : List (String × JVal)) : List (String × JVal) :=
  match fs.lookup "fields" with
  | some (.obj gs) => gs
  | _ => []

/-- An `Issue` entity of the data model: a JSON object whose `key` is
absent or a string and whose `fields` member, when present, is an object
with well-shaped `issuetype`/`status`/`priority` name holders and an
absent-or-string `summary`. -/
def WellShapedIssue : JVal → Bool
  | .obj fs =>
      okStrField fs "key" &&
      (match fs.lookup "fields" with
       | none => true
       | some (.obj gs) =>
           okNameObj gs "issuetype" && okNameObj gs "status" &&
           okNameObj gs "priority" && okStrField gs "summary"
       | some _ => false)
  | _ => false

/-- The summary column text: unchanged up to length 70, else the first
67 characters and an ellipsis. -/
def summaryText (s : String) : String :=
  if 70 < s.length then pySliceTo s 67 ++ "..." else s

/-! ### The sort of display_versions: ordering and stability -/

/-- The sort key of a version as a total function (the claims apply it
only where `versionKey` succeeds). -/
def versionKeyD (v : JVal) : String :=
  match versionKey v with
  | .ok s => s
  | .error _ => "9999-99-99"

/-- The text row of a version as a total function (the claims apply it
only where `versionRow` succeeds). -/
def versionRowD (v : JVal) : String :=
  match versionRow v with
  | .ok r => r
  | .error _ => ""

/-- Digits accumulate as a left fold of base-ten steps. -/
def digitsVal (a : Nat) (ds : List Char) : Nat :=
  ds.foldl (fun x c => x * 10 + (c.toNat - 48)) a

/-- The suffix a number may be followed by: empty, or starting with a
non-digit (the printed JSON that follows a number always does). -/
def restOkD : List Char → Prop
  | [] => True
  | c :: _ => c.isDigit = false

/-! ### Basic facts about the embedded operations -/

/-- The second component of a pair is smaller than the pair. -/
theorem sizeOf_snd_lt {A B : Type} [SizeOf A] [SizeOf B] (p : A × B) :
    sizeOf p.2 < sizeOf p := by
  cases p
  simp

theorem stripSlash_concat (u : String) :
    stripSlash (u ++ "/") = u := by
  unfold stripSlash
  rw [String.data_append]
  have hlast : (u.data ++ ['/']).getLast? = some '/' := List.getLast?_concat u.data
  rw [if_pos hlast, List.dropLast_concat]

theorem stripSlash_no_slash (u : String) (h : u.data.getLast? ≠ some '/') :
    stripSlash u = u := by
  unfold stripSlash
  rw [if_neg h]

/-- C8: with an empty list and text format, `display_versions` prints
exactly the one no-releases notice and `display_issues` exactly the one
no-issues notice: no header, no count, no table. -/
theorem c8_empty_notices :
    display_versions (.arr []) "text" = .ok ["No releases found for this project."] ∧
    display_issues (.arr []) "text" = .ok ["No issues found for this release."] := by
  constructor <;> rfl

/-- C9: both fetch operations normalize one trailing slash away from the
base URL: a URL with a trailing slash behaves exactly like the same URL
without it, and for a slash-free URL the endpoints append
`/rest/api/2/...` directly. -/
theorem c9_trailing_slash (u project_key version_id username api_token : String)
    (net : Network) (h : u.data.getLast? ≠ some '/') :
    get_project_versions (u ++ "/") project_key username api_token net =
      get_project_versions u project_key username api_token net ∧
    get_issues_for_version (u ++ "/") project_key version_id username api_token net =
      get_issues_for_version u project_key version_id username api_token net ∧
    versionsEndpoint (u ++ "/") project_key = versionsEndpoint u project_key ∧
    searchEndpoint (u ++ "/") project_key version_id =
      searchEndpoint u project_key version_id ∧
    versionsEndpoint u project_key =
      u ++ "/rest/api/2/project/" ++ project_key ++ "/versions" ∧
    searchEndpoint u project_key version_id =
      u ++ "/rest/api/2/search?jql=" ++ pyQuote (jqlQuery project_key version_id) ++
        "&maxResults=1000" := by
  have hv : versionsEndpoint (u ++ "/") project_key = versionsEndpoint u project_key := by
    unfold versionsEndpoint
    rw [stripSlash_concat, stripSlash_no_slash u h]
  have hs : searchEndpoint (u ++ "/") project_key version_id =
      searchEndpoint u project_key version_id := by
    unfold searchEndpoint
    rw [stripSlash_concat, stripSlash_no_slash u h]
  refine ⟨?_, ?_, hv, hs, ?_, ?_⟩
  · unfold get_project_versions
    rw [hv]
  · unfold get_issues_for_version
    rw [hs]
  · unfold versionsEndpoint
    rw [stripSlash_no_slash u h]
  · unfold searchEndpoint
    rw [stripSlash_no_slash u h]


/-- Witness for C9 at a concrete slash-free base URL. -/
theorem c9_trailing_slash_witness :
    get_project_versions ("https://example.com" ++ "/") "PROJ" "u" "t"
        (fun _ => ReqResult.connError) =
      get_project_versions "https://example.com" "PROJ" "u" "t"
        (fun _ => ReqResult.connError) ∧
    versionsEndpoint "https://example.com" "PROJ" =
      "https://example.com" ++ "/rest/api/2/project/" ++ "PROJ" ++ "/versions" := by
  have h := c9_trailing_slash "https://example.com" "PROJ" "7" "u" "t"
    (fun _ => ReqResult.connError) (by decide)
  exact ⟨h.1, h.2.2.2.2.1⟩

/-- C7: `get_issues_for_version` queries exactly the percent-encoded JQL
search endpoint built from the project key and version id, and on a
successful response returns the `issues` member of the body, or the
empty list when that key is absent. -/
theorem c7_search_query (url project_key version_id username api_token : String)
    (net : Network) :
    searchEndpoint url project_key version_id =
      stripSlash url ++ "/rest/api/2/search?jql=" ++
        pyQuote ("project = " ++ project_key ++ " AND fixVersion = " ++
          version_id ++ " ORDER BY key ASC") ++ "&maxResults=1000" ∧
    (∀ fields v,
      net (searchEndpoint url project_key version_id) = .ok (.obj fields) →
      fields.lookup "issues" = some v →
      get_issues_for_version url project_key version_id username api_token net =
        .ok v) ∧
    (∀ fields,
      net (searchEndpoint url project_key version_id) = .ok (.obj fields) →
      fields.lookup "issues" = none →
      get_issues_for_version url project_key version_id username api_token net =
        .ok (.arr [])) := by
  refine ⟨rfl, ?_, ?_⟩
  · intro fields v hnet hlook
    unfold get_issues_for_version
    rw [hnet]
    simp [pyGet, hlook]
  · intro fields hnet hlook
    unfold get_issues_for_version
    rw [hnet]
    simp [pyGet, hlook]

/-- Witness for C7 on a concrete body carrying an `issues` array. -/
theorem c7_search_query_witness :
    get_issues_for_version "https://example.com" "PROJ" "7" "u" "t"
      (fun _ => ReqResult.ok (.obj [("issues", .arr [.str "i1"])])) =
      .ok (.arr [.str "i1"]) :=
  (c7_search_query "https://example.com" "PROJ" "7" "u" "t"
      (fun _ => ReqResult.ok (.obj [("issues", .arr [.str "i1"])]))).2.1
    [("issues", .arr [.str "i1"])] (.arr [.str "i1"]) rfl rfl

/-- Python truthiness of the optional release id equals non-emptiness of
its string value with default `""`. -/
theorem pyTruthyOptStr_iff (o : Option String) :
    pyTruthyOptStr o = true ↔ o.getD "" ≠ "" := by
  cases o with
  | none => simp [pyTruthyOptStr]
  | some s =>
    simp only [pyTruthyOptStr, Option.getD_some, Bool.not_eq_true']
    constructor
    · intro h hs
      subst hs
      exact absurd h (by decide)
    · intro h
      cases hb : s.isEmpty with
      | false => rfl
      | true => exact absurd ((String.isEmpty_iff _).mp hb) h

/-- C1 counterexample: with `--release-id` provided as the empty string
and `--list-issues` set, the driver still takes the versions path
(`if args.release_id` is Python truthiness, and the empty string is
falsy), contradicting the claimed if-and-only-if dispatch on
"release id provided and list-issues set". -/
theorem c1_counterexample :
    (Args.mk "PROJ" "https://example.com" "u" "t" "text" (some "") true).release_id ≠
      none ∧
    (Args.mk "PROJ" "https://example.com" "u" "t" "text" (some "") true).list_issues =
      true ∧
    (runMain (Args.mk "PROJ" "https://example.com" "u" "t" "text" (some "") true)
        (fun _ => ReqResult.ok (.arr []))).1 =
      [Call.fetchVersions (versionsEndpoint "https://example.com" "PROJ"),
       Call.renderVersions] := by
  refine ⟨?_, rfl, rfl⟩
  intro hc
  cases hc

/-- C1 (amended): the driver fetches and renders issues exactly when
`--release-id` carries a non-empty value and `--list-issues` is set; in
every other case (no release id, an empty release id, or no
`--list-issues`) it fetches versions, and renders them on a successful
response. -/
theorem c1_dispatch (args : Args) (net : Network) :
    ((runMain args net).1.head? =
        some (.fetchIssues
          (searchEndpoint args.url args.project_key (args.release_id.getD ""))) ↔
      (args.release_id.getD "" ≠ "" ∧ args.list_issues = true)) ∧
    (¬(args.release_id.getD "" ≠ "" ∧ args.list_issues = true) →
      (runMain args net).1.head? =
        some (.fetchVersions (versionsEndpoint args.url args.project_key))) ∧
    ((args.release_id.getD "" ≠ "" ∧ args.list_issues = true) →
      ∀ fields,
        net (searchEndpoint args.url args.project_key (args.release_id.getD "")) =
          .ok (.obj fields) →
        (runMain args net).1 =
          [.fetchIssues
            (searchEndpoint args.url args.project_key (args.release_id.getD "")),
           .renderIssues]) ∧
    (¬(args.release_id.getD "" ≠ "" ∧ args.list_issues = true) →
      ∀ body, net (versionsEndpoint args.url args.project_key) = .ok body →
        (runMain args net).1 =
          [.fetchVersions (versionsEndpoint args.url args.project_key),
           .renderVersions]) := by
  by_cases hc : (pyTruthyOptStr args.release_id && args.list_issues) = true
  · have hcond : args.release_id.getD "" ≠ "" ∧ args.list_issues = true := by
      rcases Bool.and_eq_true _ _ |>.mp hc with ⟨h1, h2⟩
      exact ⟨(pyTruthyOptStr_iff _).mp h1, h2⟩
    have hhead : (runMain args net).1.head? =
        some (.fetchIssues
          (searchEndpoint args.url args.project_key (args.release_id.getD ""))) := by
      unfold runMain
      rw [if_pos hc]
      cases hfetch : get_issues_for_version args.url args.project_key
          (args.release_id.getD "") args.user args.token net with
      | ok issues =>
        cases hdisp : display_issues issues args.format <;> simp [hfetch, hdisp]
      | exit1 msgs => simp [hfetch]
      | uncaught exn => simp [hfetch]
    refine ⟨⟨fun _ => hcond, fun _ => hhead⟩, fun hno => absurd hcond hno, ?_,
      fun hno => absurd hcond hno⟩
    intro hcond2 fields hnet
    unfold runMain
    rw [if_pos hc]
    have hfetch : get_issues_for_version args.url args.project_key
        (args.release_id.getD "") args.user args.token net =
        .ok ((fields.lookup "issues").getD (.arr [])) := by
      unfold get_issues_for_version
      rw [hnet]
      rfl
    rw [hfetch]
    cases hdisp : display_issues ((fields.lookup "issues").getD (.arr []))
        args.format <;> simp [hdisp]
  · have hcond : ¬(args.release_id.getD "" ≠ "" ∧ args.list_issues = true) := by
      intro ⟨h1, h2⟩
      exact hc (Bool.and_eq_true _ _ |>.mpr
        ⟨(pyTruthyOptStr_iff _).mpr h1, h2⟩)
    have hhead : (runMain args net).1.head? =
        some (.fetchVersions (versionsEndpoint args.url args.project_key)) := by
      unfold runMain
      rw [if_neg hc]
      cases hfetch : get_project_versions args.url args.project_key args.user
          args.token net with
      | ok versions =>
        cases hdisp : display_versions versions args.format <;> simp [hfetch, hdisp]
      | exit1 msgs => simp [hfetch]
      | uncaught exn => simp [hfetch]
    refine ⟨⟨fun hh => ?_, fun hcond2 => absurd hcond2 hcond⟩, fun _ => hhead,
      fun hcond2 => absurd hcond2 hcond, ?_⟩
    · rw [hhead] at hh
      cases hh
    · intro _ body hnet
      unfold runMain
      rw [if_neg hc]
      have hfetch : get_project_versions args.url args.project_key args.user
          args.token net = .ok body := by
        unfold get_project_versions
        rw [hnet]
      rw [hfetch]
      cases hdisp : display_versions body args.format <;> simp [hdisp]

/-- Witness for C1 at concrete arguments taking both branches. -/
theorem c1_dispatch_witness :
    (runMain (Args.mk "P" "https://example.com" "u" "t" "text" (some "7") true)
        (fun _ => ReqResult.timeout)).1.head? =
      some (.fetchIssues (searchEndpoint "https://example.com" "P" "7")) ∧
    (runMain (Args.mk "P" "https://example.com" "u" "t" "text" none false)
        (fun _ => ReqResult.timeout)).1.head? =
      some (.fetchVersions (versionsEndpoint "https://example.com" "P")) := by
  constructor
  · exact (c1_dispatch
      (Args.mk "P" "https://example.com" "u" "t" "text" (some "7") true)
      (fun _ => ReqResult.timeout)).1.mpr ⟨by decide, rfl⟩
  · exact (c1_dispatch
      (Args.mk "P" "https://example.com" "u" "t" "text" none false)
      (fun _ => ReqResult.timeout)).2.1 (by intro ⟨h1, _⟩; exact h1 rfl)

theorem get_issues_classify (url pk vid usr tok : String) (net : Network)
    (herr : isReqError (net (searchEndpoint url pk vid)) = true) :
    ∃ msgs, get_issues_for_version url pk vid usr tok net = .exit1 msgs ∧
      msgs ≠ [] := by
  unfold get_issues_for_version
  cases hnet : net (searchEndpoint url pk vid) with
  | ok body => rw [hnet] at herr; cases herr
  | httpError status msg => exact ⟨_, rfl, by simp⟩
  | connError => exact ⟨_, rfl, by simp⟩
  | timeout => exact ⟨_, rfl, by simp⟩
  | reqError msg => exact ⟨_, rfl, by simp⟩

theorem get_versions_classify (url pk usr tok : String) (net : Network)
    (herr : isReqError (net (versionsEndpoint url pk)) = true) :
    ∃ msgs, get_project_versions url pk usr tok net = .exit1 msgs ∧
      msgs ≠ [] := by
  unfold get_project_versions
  cases hnet : net (versionsEndpoint url pk) with
  | ok body => rw [hnet] at herr; cases herr
  | httpError status msg => exact ⟨_, rfl, by simp⟩
  | connError => exact ⟨_, rfl, by simp⟩
  | timeout => exact ⟨_, rfl, by simp⟩
  | reqError msg => exact ⟨_, rfl, by simp⟩

theorem get_issues_ok_net (url pk vid usr tok : String) (net : Network)
    (v : JVal) (hok : get_issues_for_version url pk vid usr tok net = .ok v) :
    ∃ body, net (searchEndpoint url pk vid) = .ok body := by
  unfold get_issues_for_version at hok
  cases hnet : net (searchEndpoint url pk vid) <;> rw [hnet] at hok
  · exact ⟨_, rfl⟩
  all_goals cases hok

theorem get_versions_ok_net (url pk usr tok : String) (net : Network)
    (v : JVal) (hok : get_project_versions url pk usr tok net = .ok v) :
    ∃ body, net (versionsEndpoint url pk) = .ok body := by
  unfold get_project_versions at hok
  cases hnet : net (versionsEndpoint url pk) <;> rw [hnet] at hok
  · exact ⟨_, rfl⟩
  all_goals cases hok

/-- C2: every run performs exactly one HTTP request; when that request
ends in any classified error (non-2xx status, connection failure,
timeout or other request exception) the process prints at least one
diagnostic line and exits with status 1; the exit status is always 0 or
1, and it is 0 only when the request succeeded. -/
theorem c2_errors_terminal (args : Args) (net : Network) :
    ((runMain args net).2.2 = 0 ∨ (runMain args net).2.2 = 1) ∧
    ((runMain args net).1.filter isFetch).length = 1 ∧
    (∀ u, ((runMain args net).1.head? = some (.fetchVersions u) ∨
           (runMain args net).1.head? = some (.fetchIssues u)) →
      isReqError (net u) = true →
      (runMain args net).2.2 = 1 ∧ (runMain args net).2.1 ≠ []) ∧
    ((runMain args net).2.2 = 0 →
      ∃ u body, ((runMain args net).1.head? = some (.fetchVersions u) ∨
                 (runMain args net).1.head? = some (.fetchIssues u)) ∧
        net u = .ok body) := by
  by_cases hc : (pyTruthyOptStr args.release_id && args.list_issues) = true
  · unfold runMain
    rw [if_pos hc]
    cases hfetch : get_issues_for_version args.url args.project_key
        (args.release_id.getD "") args.user args.token net with
    | ok issues =>
      obtain ⟨body, hnet⟩ := get_issues_ok_net _ _ _ _ _ _ _ hfetch
      dsimp only
      cases hdisp : display_issues issues args.format with
      | ok lines =>
        refine ⟨Or.inl rfl, by simp [isFetch], ?_, ?_⟩
        · intro u hu herr
          rcases hu with hu | hu
          · cases hu
          · cases hu
            rw [hnet] at herr
            cases herr
        · intro _
          exact ⟨_, body, Or.inr rfl, hnet⟩
      | error exn =>
        refine ⟨Or.inr rfl, by simp [isFetch], ?_, ?_⟩
        · intro u hu herr
          rcases hu with hu | hu
          · cases hu
          · cases hu
            rw [hnet] at herr
            cases herr
        · intro h0
          cases h0
    | exit1 msgs =>
      obtain ⟨msgs2, hfetch2, hne⟩ : ∃ m, _ ∧ m ≠ [] := by
        refine get_issues_classify args.url args.project_key
          (args.release_id.getD "") args.user args.token net ?_
        unfold get_issues_for_version at hfetch
        cases hnet : net (searchEndpoint args.url args.project_key
            (args.release_id.getD "")) <;> rw [hnet] at hfetch <;>
          dsimp only at hfetch
        · rename_i body
          cases hg : pyGet body "issues" (.arr []) <;> rw [hg] at hfetch <;>
            cases hfetch
        all_goals rfl
      rw [hfetch] at hfetch2
      cases hfetch2
      dsimp only
      refine ⟨Or.inr rfl, by simp [isFetch], ?_, ?_⟩
      · intro u hu herr
        exact ⟨rfl, hne⟩
      · intro h0
        cases h0
    | uncaught exn =>
      dsimp only
      refine ⟨Or.inr rfl, by simp [isFetch], ?_, ?_⟩
      · intro u hu herr
        exact ⟨rfl, by simp⟩
      · intro h0
        cases h0
  · unfold runMain
    rw [if_neg hc]
    cases hfetch : get_project_versions args.url args.project_key args.user
        args.token net with
    | ok versions =>
      obtain ⟨body, hnet⟩ := get_versions_ok_net _ _ _ _ _ _ hfetch
      dsimp only
      cases hdisp : display_versions versions args.format with
      | ok lines =>
        refine ⟨Or.inl rfl, by simp [isFetch], ?_, ?_⟩
        · intro u hu herr
          rcases hu with hu | hu
          · cases hu
            rw [hnet] at herr
            cases herr
          · cases hu
        · intro _
          exact ⟨_, body, Or.inl rfl, hnet⟩
      | error exn =>
        refine ⟨Or.inr rfl, by simp [isFetch], ?_, ?_⟩
        · intro u hu herr
          rcases hu with hu | hu
          · cases hu
            rw [hnet] at herr
            cases herr
          · cases hu
        · intro h0
          cases h0
    | exit1 msgs =>
      obtain ⟨msgs2, hfetch2, hne⟩ : ∃ m, _ ∧ m ≠ [] := by
        refine get_versions_classify args.url args.project_key args.user
          args.token net ?_
        unfold get_project_versions at hfetch
        cases hnet : net (versionsEndpoint args.url args.project_key) <;>
          rw [hnet] at hfetch
        · cases hfetch
        all_goals rfl
      rw [hfetch] at hfetch2
      cases hfetch2
      dsimp only
      refine ⟨Or.inr rfl, by simp [isFetch], ?_, ?_⟩
      · intro u hu herr
        exact ⟨rfl, hne⟩
      · intro h0
        cases h0
    | uncaught exn =>
      dsimp only
      refine ⟨Or.inr rfl, by simp [isFetch], ?_, ?_⟩
      · intro u hu herr
        exact ⟨rfl, by simp⟩
      · intro h0
        cases h0

/-- Witness for C2 at a concrete timed-out request. -/
theorem c2_errors_terminal_witness :
    (runMain (Args.mk "P" "https://example.com" "u" "t" "text" none false)
        (fun _ => ReqResult.timeout)).2.2 = 1 ∧
    (runMain (Args.mk "P" "https://example.com" "u" "t" "text" none false)
        (fun _ => ReqResult.timeout)).2.1 ≠ [] :=
  (c2_errors_terminal (Args.mk "P" "https://example.com" "u" "t" "text" none false)
    (fun _ => ReqResult.timeout)).2.2.1
    (versionsEndpoint "https://example.com" "P") (Or.inl rfl) rfl

theorem okStrField_cases (fs : List (String × JVal)) (k : String)
    (h : okStrField fs k = true) :
    fs.lookup k = none ∨ ∃ s, fs.lookup k = some (.str s) := by
  unfold okStrField at h
  cases hl : fs.lookup k <;> rw [hl] at h
  · exact Or.inl rfl
  · rename_i v
    cases v <;> dsimp only at h
    case str s => exact Or.inr ⟨s, rfl⟩
    all_goals cases h

theorem okNameObj_cases (gs : List (String × JVal)) (k : String)
    (h : okNameObj gs k = true) :
    gs.lookup k = none ∨
      ∃ hs, gs.lookup k = some (.obj hs) ∧ okStrField hs "name" = true := by
  unfold okNameObj at h
  cases hl : gs.lookup k <;> rw [hl] at h
  · exact Or.inl rfl
  · rename_i v
    cases v <;> dsimp only at h
    case obj hs => exact Or.inr ⟨hs, rfl, h⟩
    all_goals cases h

theorem pyGet_str_field (fs : List (String × JVal)) (k dflt : String)
    (h : okStrField fs k = true) :
    pyGet (.obj fs) k (.str dflt) = .ok (.str (strFieldD fs k dflt)) := by
  rcases okStrField_cases fs k h with hl | ⟨s, hl⟩ <;>
    simp [pyGet, strFieldD, hl]

theorem pyGet_name_chain (gs : List (String × JVal)) (k : String)
    (h : okNameObj gs k = true) :
    ∃ o, pyGet (.obj gs) k (.obj []) = .ok o ∧
      pyGet o "name" (.str "N/A") = .ok (.str (nameFieldD gs k)) := by
  rcases okNameObj_cases gs k h with hl | ⟨hs, hl, hname⟩
  · refine ⟨.obj [], by simp [pyGet, hl], ?_⟩
    simp [pyGet, nameFieldD, hl, List.lookup]
  · refine ⟨.obj hs, by simp [pyGet, hl], ?_⟩
    rw [pyGet_str_field hs "name" "N/A" hname]
    simp [nameFieldD, hl]

theorem summaryDisplay_str (s : String) :
    summaryDisplay (.str s) = .ok (summaryText s) := by
  unfold summaryDisplay summaryText
  simp only [pyLen, pyStr, Bind.bind, Except.bind]
  split <;> rfl

theorem wellShapedIssue_parts (fs : List (String × JVal))
    (h : WellShapedIssue (.obj fs) = true) :
    okStrField fs "key" = true ∧
    pyGet (.obj fs) "fields" (.obj []) = .ok (.obj (fieldsOf fs)) ∧
    okNameObj (fieldsOf fs) "issuetype" = true ∧
    okNameObj (fieldsOf fs) "status" = true ∧
    okNameObj (fieldsOf fs) "priority" = true ∧
    okStrField (fieldsOf fs) "summary" = true := by
  unfold WellShapedIssue at h
  rw [Bool.and_eq_true] at h
  obtain ⟨hkey, hrest⟩ := h
  cases hf : fs.lookup "fields" <;> rw [hf] at hrest
  · refine ⟨hkey, by simp [pyGet, fieldsOf, hf], ?_, ?_, ?_, ?_⟩ <;>
      simp [fieldsOf, hf, okNameObj, okStrField, List.lookup]
  · rename_i v
    cases v <;> dsimp only at hrest
    case obj gs =>
      simp only [Bool.and_eq_true] at hrest
      obtain ⟨⟨⟨hit, hst⟩, hpr⟩, hsum⟩ := hrest
      have hgs : fieldsOf fs = gs := by simp [fieldsOf, hf]
      rw [hgs]
      exact ⟨hkey, by simp [pyGet, fieldsOf, hf, hgs], hit, hst, hpr, hsum⟩
    all_goals cases hrest

theorem issueRow_eq (fs : List (String × JVal))
    (h : WellShapedIssue (.obj fs) = true) :
    issueRow (.obj fs) = .ok
      (padRight (strFieldD fs "key" "N/A") 15 ++ " " ++
       padRight (nameFieldD (fieldsOf fs) "issuetype") 15 ++ " " ++
       padRight (nameFieldD (fieldsOf fs) "status") 15 ++ " " ++
       padRight (nameFieldD (fieldsOf fs) "priority") 10 ++ " " ++
       summaryText (strFieldD (fieldsOf fs) "summary" "N/A")) := by
  obtain ⟨hkey, hfields, hit, hst, hpr, hsum⟩ := wellShapedIssue_parts fs h
  obtain ⟨o1, ho1, ho1n⟩ := pyGet_name_chain _ "issuetype" hit
  obtain ⟨o2, ho2, ho2n⟩ := pyGet_name_chain _ "status" hst
  obtain ⟨o3, ho3, ho3n⟩ := pyGet_name_chain _ "priority" hpr
  unfold issueRow
  simp only [Bind.bind, Except.bind, pyGet_str_field fs "key" "N/A" hkey, hfields,
    ho1, ho1n, ho2, ho2n, ho3, ho3n, pyGet_str_field _ "summary" "N/A" hsum,
    summaryDisplay_str, pyFormatLeft]

theorem versionRow_eq (fs : List (String × JVal))
    (h : WellShapedVersion (.obj fs) = true) :
    versionRow (.obj fs) = .ok
      (padRight (strFieldD fs "id" "N/A") 10 ++ " " ++
       padRight (strFieldD fs "name" "N/A") 20 ++ " " ++
       padRight (if pyTruthy ((fs.lookup "released").getD (.bool false))
          then "Yes" else "No") 10 ++ " " ++
       padRight (strFieldD fs "releaseDate" "N/A") 12 ++ " " ++
       strFieldD fs "description" "") := by
  unfold WellShapedVersion at h
  simp only [Bool.and_eq_true] at h
  obtain ⟨⟨⟨hid, hname⟩, hrd⟩, hdesc⟩ := h
  rcases okStrField_cases _ _ hid with hid | ⟨sid, hid⟩ <;>
  rcases okStrField_cases _ _ hname with hname | ⟨sname, hname⟩ <;>
  rcases okStrField_cases _ _ hrd with hrd | ⟨srd, hrd⟩ <;>
  rcases okStrField_cases _ _ hdesc with hdesc | ⟨sdesc, hdesc⟩ <;>
    simp [versionRow, pyGet, pyFormatLeft, pyStr, strFieldD, hid, hname, hrd,
      hdesc, Bind.bind, Except.bind]

/-- C10: in a text version row, a missing `description` renders as the
empty string (not `N/A`), a missing `released` renders as `No`, and the
`id`, `name` and `releaseDate` columns fall back to `N/A` when absent. -/
theorem c10_version_row_defaults (fs : List (String × JVal))
    (h : WellShapedVersion (.obj fs) = true) :
    ∃ i n rel rd d,
      versionRow (.obj fs) = .ok
        (padRight i 10 ++ " " ++ padRight n 20 ++ " " ++ padRight rel 10 ++
          " " ++ padRight rd 12 ++ " " ++ d) ∧
      (fs.lookup "description" = none → d = "") ∧
      (fs.lookup "released" = none → rel = "No") ∧
      (fs.lookup "id" = none → i = "N/A") ∧
      (fs.lookup "name" = none → n = "N/A") ∧
      (fs.lookup "releaseDate" = none → rd = "N/A") := by
  refine ⟨_, _, _, _, _, versionRow_eq fs h, ?_, ?_, ?_, ?_, ?_⟩ <;>
    intro hl <;> simp [strFieldD, hl, pyTruthy]

/-- Witness for C10 at the empty version object. -/
theorem c10_version_row_defaults_witness :
    ∃ i n rel rd d,
      versionRow (.obj []) = .ok
        (padRight i 10 ++ " " ++ padRight n 20 ++ " " ++ padRight rel 10 ++
          " " ++ padRight rd 12 ++ " " ++ d) ∧
      (([] : List (String × JVal)).lookup "description" = none → d = "") ∧
      (([] : List (String × JVal)).lookup "released" = none → rel = "No") ∧
      (([] : List (String × JVal)).lookup "id" = none → i = "N/A") ∧
      (([] : List (String × JVal)).lookup "name" = none → n = "N/A") ∧
      (([] : List (String × JVal)).lookup "releaseDate" = none → rd = "N/A") :=
  c10_version_row_defaults [] (by decide)

/-- C4 counterexample: an issue whose `fields.priority` is present but
null makes the text renderer raise an `AttributeError` (Python evaluates
`issue.get("fields", {}).get("priority", {}).get("name", "N/A")` and
`None` has no `.get`), instead of degrading the malformed sub-field to
the `N/A` placeholder. -/
theorem c4_counterexample :
    display_issues
      (.arr [.obj [("key", .str "PROJ-1"), ("fields", .obj [("priority", .null)])]])
      "text" = .error .attributeError := by
  rfl

/-- C4 (amended): on well-shaped issues the renderer never fails and
every missing sub-field (key, issuetype.name, status.name, priority.name,
summary) degrades to the exact placeholder `N/A` in its column; a
present sub-field of the wrong shape, such as a null `priority`, instead
raises an uncaught exception. -/
theorem c4_missing_fields_default (fs : List (String × JVal))
    (h : WellShapedIssue (.obj fs) = true) :
    ∃ k t st p sm,
      issueRow (.obj fs) = .ok
        (padRight k 15 ++ " " ++ padRight t 15 ++ " " ++ padRight st 15 ++
          " " ++ padRight p 10 ++ " " ++ sm) ∧
      ((fieldsOf fs).lookup "priority" = none → p = "N/A") ∧
      (fs.lookup "key" = none → k = "N/A") ∧
      ((fieldsOf fs).lookup "issuetype" = none → t = "N/A") ∧
      ((fieldsOf fs).lookup "status" = none → st = "N/A") ∧
      ((fieldsOf fs).lookup "summary" = none → sm = "N/A") := by
  refine ⟨_, _, _, _, _, issueRow_eq fs h, ?_, ?_, ?_, ?_, ?_⟩ <;> intro hl
  · simp [nameFieldD, hl]
  · simp [strFieldD, hl]
  · simp [nameFieldD, hl]
  · simp [nameFieldD, hl]
  · simp only [strFieldD, hl]
    decide

/-- Witness for C4 at an issue object that lacks the priority field. -/
theorem c4_missing_fields_default_witness :
    ∃ k t st p sm,
      issueRow (.obj [("key", .str "PROJ-9")]) = .ok
        (padRight k 15 ++ " " ++ padRight t 15 ++ " " ++ padRight st 15 ++
          " " ++ padRight p 10 ++ " " ++ sm) ∧
      ((fieldsOf [("key", .str "PROJ-9")]).lookup "priority" = none → p = "N/A") ∧
      ([("key", JVal.str "PROJ-9")].lookup "key" = none → k = "N/A") ∧
      ((fieldsOf [("key", .str "PROJ-9")]).lookup "issuetype" = none → t = "N/A") ∧
      ((fieldsOf [("key", .str "PROJ-9")]).lookup "status" = none → st = "N/A") ∧
      ((fieldsOf [("key", .str "PROJ-9")]).lookup "summary" = none → sm = "N/A") :=
  c4_missing_fields_default [("key", .str "PROJ-9")] (by decide)

/-- C5: a summary longer than 70 characters renders as its first 67
characters followed by `...` (70 characters in all); a summary of at
most 70 characters renders unmodified; and in a well-shaped issue row
the summary column is exactly this text. -/
theorem c5_summary_truncation (s : String) :
    (70 < s.length →
      summaryDisplay (.str s) = .ok (pySliceTo s 67 ++ "...") ∧
      (pySliceTo s 67 ++ "...").length = 70) ∧
    (s.length ≤ 70 → summaryDisplay (.str s) = .ok s) ∧
    (∀ fs, WellShapedIssue (.obj fs) = true →
      (fieldsOf fs).lookup "summary" = some (.str s) →
      ∃ pre, issueRow (.obj fs) = .ok (pre ++ summaryText s)) := by
  refine ⟨?_, ?_, ?_⟩
  · intro h
    constructor
    · rw [summaryDisplay_str]
      unfold summaryText
      rw [if_pos h]
    · have h67 : (pySliceTo s 67).length = 67 := by
        unfold pySliceTo
        show (s.data.take 67).length = 67
        rw [List.length_take]
        have hsd : s.length = s.data.length := rfl
        omega
      rw [String.length_append, h67]
      rfl
  · intro h
    rw [summaryDisplay_str]
    unfold summaryText
    rw [if_neg (by omega)]
  · intro fs hws hsum
    have hs : strFieldD (fieldsOf fs) "summary" "N/A" = s := by
      simp [strFieldD, hsum]
    refine ⟨padRight (strFieldD fs "key" "N/A") 15 ++ " " ++
      padRight (nameFieldD (fieldsOf fs) "issuetype") 15 ++ " " ++
      padRight (nameFieldD (fieldsOf fs) "status") 15 ++ " " ++
      padRight (nameFieldD (fieldsOf fs) "priority") 10 ++ " ", ?_⟩
    rw [issueRow_eq fs hws, hs]

/-- Witness for C5 at a summary of length 75. -/
theorem c5_summary_truncation_witness :
    summaryDisplay (.str (String.mk (List.replicate 75 'a'))) =
      .ok (pySliceTo (String.mk (List.replicate 75 'a')) 67 ++ "...") ∧
    (pySliceTo (String.mk (List.replicate 75 'a')) 67 ++ "...").length = 70 :=
  (c5_summary_truncation (String.mk (List.replicate 75 'a'))).1 (by decide)

theorem wellShaped_version_obj (v : JVal) (h : WellShapedVersion v = true) :
    ∃ fs, v = .obj fs := by
  cases v <;> first | exact ⟨_, rfl⟩ | cases h

theorem versionKey_ok (v : JVal) (h : WellShapedVersion v = true) :
    versionKey v = .ok (versionKeyD v) := by
  obtain ⟨fs, rfl⟩ := wellShaped_version_obj v h
  unfold WellShapedVersion at h
  simp only [Bool.and_eq_true] at h
  obtain ⟨⟨⟨_, _⟩, hrd⟩, _⟩ := h
  rcases okStrField_cases _ _ hrd with hrd | ⟨srd, hrd⟩
  · simp [versionKey, versionKeyD, pyGet, pyTruthy, hrd, Bind.bind, Except.bind]
  · cases hb : srd.isEmpty <;>
      simp [versionKey, versionKeyD, pyGet, pyTruthy, hrd, hb, Bind.bind,
        Except.bind]

theorem versionRow_ok (v : JVal) (h : WellShapedVersion v = true) :
    versionRow v = .ok (versionRowD v) := by
  obtain ⟨fs, rfl⟩ := wellShaped_version_obj v h
  simp [versionRowD, versionRow_eq fs h]

theorem mapM_versionKey_ok (l : List JVal)
    (h : ∀ v ∈ l, WellShapedVersion v = true) :
    l.mapM versionKey = .ok (l.map versionKeyD) := by
  induction l with
  | nil => rfl
  | cons a t ih =>
    rw [List.mapM_cons, versionKey_ok a (h a (by simp)),
      ih (fun v hv => h v (by simp [hv]))]
    rfl

theorem mapM_versionRow_ok (l : List JVal)
    (h : ∀ v ∈ l, WellShapedVersion v = true) :
    l.mapM versionRow = .ok (l.map versionRowD) := by
  induction l with
  | nil => rfl
  | cons a t ih =>
    rw [List.mapM_cons, versionRow_ok a (h a (by simp)),
      ih (fun v hv => h v (by simp [hv]))]
    rfl

theorem insertKeyed_perm (p : String × JVal) (l : List (String × JVal)) :
    (insertKeyed p l).Perm (p :: l) := by
  induction l with
  | nil => exact List.Perm.refl _
  | cons q t ih =>
    unfold insertKeyed
    split
    · exact List.Perm.refl _
    · exact (List.Perm.cons q ih).trans (List.Perm.swap p q t)

theorem sortKeyed_perm (l : List (String × JVal)) : (sortKeyed l).Perm l := by
  induction l with
  | nil => exact List.Perm.refl _
  | cons p t ih =>
    exact (insertKeyed_perm p (sortKeyed t)).trans (List.Perm.cons p ih)

theorem insertKeyed_sorted (p : String × JVal) (l : List (String × JVal))
    (h : l.Pairwise (fun a b => a.1 ≤ b.1)) :
    (insertKeyed p l).Pairwise (fun a b => a.1 ≤ b.1) := by
  induction l with
  | nil => simp [insertKeyed]
  | cons q t ih =>
    rw [List.pairwise_cons] at h
    obtain ⟨hq, ht⟩ := h
    unfold insertKeyed
    split
    · rename_i hle
      rw [List.pairwise_cons]
      refine ⟨?_, List.pairwise_cons.mpr ⟨hq, ht⟩⟩
      intro b hb
      rcases List.mem_cons.mp hb with rfl | hb
      · exact hle
      · exact le_trans hle (hq b hb)
    · rename_i hgt
      rw [List.pairwise_cons]
      refine ⟨?_, ih ht⟩
      intro b hb
      have hqp : q.1 ≤ p.1 := le_of_not_le hgt
      rcases List.mem_cons.mp ((insertKeyed_perm p t).mem_iff.mp hb) with rfl | hb
      · exact hqp
      · exact hq b hb

theorem sortKeyed_sorted (l : List (String × JVal)) :
    (sortKeyed l).Pairwise (fun a b => a.1 ≤ b.1) := by
  induction l with
  | nil => simp [sortKeyed]
  | cons p t ih => exact insertKeyed_sorted p (sortKeyed t) ih

theorem insertKeyed_filter_eq (p : String × JVal) (l : List (String × JVal))
    (s : String) (hp : p.1 = s) :
    (insertKeyed p l).filter (fun q => q.1 == s) =
      p :: l.filter (fun q => q.1 == s) := by
  induction l with
  | nil => simp [insertKeyed, List.filter, hp]
  | cons q t ih =>
    unfold insertKeyed
    split
    · simp [List.filter, hp]
    · rename_i hgt
      have hq : (q.1 == s) = false := by
        have : q.1 < p.1 := lt_of_not_le hgt
        rw [hp] at this
        simp only [beq_eq_false_iff_ne, ne_eq]
        exact fun he => absurd he (ne_of_lt this)
      simp only [List.filter_cons, hq, ih]
      simp [List.filter_cons, hq]

theorem insertKeyed_filter_ne (p : String × JVal) (l : List (String × JVal))
    (s : String) (hp : p.1 ≠ s) :
    (insertKeyed p l).filter (fun q => q.1 == s) =
      l.filter (fun q => q.1 == s) := by
  have hpb : (p.1 == s) = false := by
    simp only [beq_eq_false_iff_ne, ne_eq]
    exact hp
  induction l with
  | nil => simp [insertKeyed, List.filter, hpb]
  | cons q t ih =>
    unfold insertKeyed
    split
    · simp [List.filter_cons, hpb]
    · simp only [List.filter_cons, ih]

theorem sortKeyed_filter (l : List (String × JVal)) (s : String) :
    (sortKeyed l).filter (fun q => q.1 == s) =
      l.filter (fun q => q.1 == s) := by
  induction l with
  | nil => rfl
  | cons p t ih =>
    by_cases hp : p.1 = s
    · rw [sortKeyed, insertKeyed_filter_eq p _ s hp, ih, List.filter_cons,
        if_pos (by simp [hp])]
    · rw [sortKeyed, insertKeyed_filter_ne p _ s hp, ih, List.filter_cons,
        if_neg (by simp [hp])]

theorem zip_keyD_fst (l : List JVal) :
    ∀ p ∈ (l.map versionKeyD).zip l, p.1 = versionKeyD p.2 := by
  induction l with
  | nil => intro p hp; cases hp
  | cons a t ih =>
    intro p hp
    rcases List.mem_cons.mp hp with rfl | hp
    · rfl
    · exact ih p hp

theorem map_snd_zip_self (l : List JVal) (f : JVal → String) :
    ((l.map f).zip l).map Prod.snd = l := by
  induction l with
  | nil => rfl
  | cons a t ih => simp [ih]

theorem filter_map_snd (L : List (String × JVal)) (s : String)
    (hinv : ∀ p ∈ L, p.1 = versionKeyD p.2) :
    (L.map Prod.snd).filter (fun v => versionKeyD v == s) =
      (L.filter (fun p => p.1 == s)).map Prod.snd := by
  induction L with
  | nil => rfl
  | cons p t ih =>
    have hp : p.1 = versionKeyD p.2 := hinv p (by simp)
    have iht := ih (fun q hq => hinv q (by simp [hq]))
    simp only [List.map_cons, List.filter_cons, ← hp]
    cases hb : (p.1 == s) <;> simp [hb, iht]

/-- C3: on a non-empty list of well-shaped versions, the text renderer
prints the rows in ascending order of the sort key (the `releaseDate`
string, with a missing or empty date keyed as `9999-99-99` and hence
after all dated entries), the printed rows are a permutation of the
input, and entries in the same key class keep their input order (the
sort is stable). -/
theorem c3_sorted_stable (vs : List JVal) (hne : vs ≠ [])
    (hshape : ∀ v ∈ vs, WellShapedVersion v = true) :
    ∃ sortedVs : List JVal,
      display_versions (.arr vs) "text" = .ok
        (("Found " ++ toString vs.length ++ " releases:") :: dashes 80 ::
          versionsHeader :: dashes 80 :: sortedVs.map versionRowD) ∧
      sortedVs.Perm vs ∧
      sortedVs.Pairwise (fun a b => versionKeyD a ≤ versionKeyD b) ∧
      (∀ s, sortedVs.filter (fun v => versionKeyD v == s) =
        vs.filter (fun v => versionKeyD v == s)) ∧
      (∀ fs : List (String × JVal),
        ((fs.lookup "releaseDate" = none ∨
            fs.lookup "releaseDate" = some (.str "")) →
          versionKeyD (.obj fs) = "9999-99-99") ∧
        (∀ s, fs.lookup "releaseDate" = some (.str s) → s ≠ "" →
          versionKeyD (.obj fs) = s)) := by
  have hvempty : vs.isEmpty = false := by
    cases vs with
    | nil => exact absurd rfl hne
    | cons a t => rfl
  have hinvP : ∀ p ∈ (vs.map versionKeyD).zip vs, p.1 = versionKeyD p.2 :=
    zip_keyD_fst vs
  have hinvS : ∀ p ∈ sortKeyed ((vs.map versionKeyD).zip vs),
      p.1 = versionKeyD p.2 := by
    intro p hp
    exact hinvP p ((sortKeyed_perm _).mem_iff.mp hp)
  have hpermS :
      ((sortKeyed ((vs.map versionKeyD).zip vs)).map Prod.snd).Perm vs := by
    have h1 := (sortKeyed_perm ((vs.map versionKeyD).zip vs)).map Prod.snd
    rw [map_snd_zip_self vs versionKeyD] at h1
    exact h1
  have hrows : ∀ v ∈ (sortKeyed ((vs.map versionKeyD).zip vs)).map Prod.snd,
      WellShapedVersion v = true := by
    intro v hv
    exact hshape v (hpermS.mem_iff.mp hv)
  refine ⟨(sortKeyed ((vs.map versionKeyD).zip vs)).map Prod.snd,
    ?_, hpermS, ?_, ?_, ?_⟩
  · unfold display_versions
    rw [if_neg (by decide)]
    rw [if_neg (by simp [pyTruthy, hvempty])]
    dsimp only
    simp only [Bind.bind, Except.bind, mapM_versionKey_ok vs hshape, pyLen]
    rw [mapM_versionRow_ok _ hrows]
  · rw [List.pairwise_map]
    refine List.Pairwise.imp_of_mem ?_
      (sortKeyed_sorted ((vs.map versionKeyD).zip vs))
    intro a b ha hb hle
    rw [hinvS a ha, hinvS b hb] at hle
    exact hle
  · intro s
    rw [filter_map_snd _ s hinvS, sortKeyed_filter, ← filter_map_snd _ s hinvP,
      map_snd_zip_self vs versionKeyD]
  · intro fs
    constructor
    · intro h
      rcases h with h | h <;>
        simp [versionKeyD, versionKey, pyGet, pyTruthy, h, Bind.bind,
          Except.bind] <;> decide
    · intro s hs hne2
      have hb : s.isEmpty = false := by
        cases hb : s.isEmpty with
        | false => rfl
        | true => exact absurd ((String.isEmpty_iff _).mp hb) hne2
      simp [versionKeyD, versionKey, pyGet, pyTruthy, hs, hb, Bind.bind,
        Except.bind]

/-- Witness for C3 at a two-element list with one dated and one undated
version. -/
theorem c3_sorted_stable_witness :
    ∃ sortedVs : List JVal,
      display_versions
        (.arr [.obj [("id", .str "1"), ("releaseDate", .str "2024-05-01")],
               .obj [("id", .str "2")]]) "text" = .ok
        (("Found " ++
            toString
              ([JVal.obj [("id", .str "1"), ("releaseDate", .str "2024-05-01")],
                JVal.obj [("id", .str "2")]]).length ++ " releases:") ::
          dashes 80 :: versionsHeader :: dashes 80 :: sortedVs.map versionRowD) ∧
      sortedVs.Perm
        [.obj [("id", .str "1"), ("releaseDate", .str "2024-05-01")],
         .obj [("id", .str "2")]] ∧
      sortedVs.Pairwise (fun a b => versionKeyD a ≤ versionKeyD b) ∧
      (∀ s, sortedVs.filter (fun v => versionKeyD v == s) =
        ([JVal.obj [("id", .str "1"), ("releaseDate", .str "2024-05-01")],
          JVal.obj [("id", .str "2")]]).filter
          (fun v => versionKeyD v == s)) ∧
      (∀ fs : List (String × JVal),
        ((fs.lookup "releaseDate" = none ∨
            fs.lookup "releaseDate" = some (.str "")) →
          versionKeyD (.obj fs) = "9999-99-99") ∧
        (∀ s, fs.lookup "releaseDate" = some (.str s) → s ≠ "" →
          versionKeyD (.obj fs) = s)) := by
  refine c3_sorted_stable _ (List.cons_ne_nil _ _) ?_
  intro v hv
  rcases List.mem_cons.mp hv with rfl | hv
  · decide
  rcases List.mem_cons.mp hv with rfl | hv
  · decide
  cases hv

/-! ### Round trip of the JSON encoder and decoder: token lemmas -/

theorem skipWs_append_ws (W cs : List Char) (h : ∀ c ∈ W, isWs c = true) :
    skipWs (W ++ cs) = skipWs cs := by
  induction W with
  | nil => rfl
  | cons a t ih =>
    rw [List.cons_append]
    unfold skipWs
    rw [List.dropWhile_cons, if_pos (h a (by simp))]
    exact ih (fun c hc => h c (by simp [hc]))

theorem skipWs_not_ws (c : Char) (cs : List Char) (h : isWs c = false) :
    skipWs (c :: cs) = c :: cs := by
  unfold skipWs
  rw [List.dropWhile_cons, if_neg (by rw [h]; exact Bool.false_ne_true)]

theorem jpad_ws (lvl : Nat) : ∀ c ∈ jpad lvl, isWs c = true := by
  intro c hc
  rw [List.eq_of_mem_replicate hc]
  rfl

theorem ws_not_digit (c : Char) (h : isWs c = true) : c.isDigit = false := by
  simp only [isWs, Bool.or_eq_true, decide_eq_true_eq] at h
  rcases h with ((rfl | rfl) | rfl) | rfl <;> decide

theorem isDigit_ne (c x : Char) (h : c.isDigit = true) (hx : x.isDigit = false) :
    c ≠ x := by
  intro he
  rw [he, hx] at h
  cases h

theorem isDigit_not_ws (c : Char) (h : c.isDigit = true) : isWs c = false := by
  simp only [isWs, Bool.or_eq_false_iff, decide_eq_false_iff_not]
  exact ⟨⟨⟨isDigit_ne c ' ' h (by decide), isDigit_ne c '\t' h (by decide)⟩,
    isDigit_ne c '\n' h (by decide)⟩, isDigit_ne c '\x0d' h (by decide)⟩

theorem digit_char_facts :
    ∀ d, d < 10 → (Char.ofNat (48 + d)).isDigit = true ∧
      (Char.ofNat (48 + d)).toNat = 48 + d := by
  decide

theorem parseNatAux_digits (ds : List Char) :
    ∀ rest a, (∀ c ∈ ds, c.isDigit = true) → restOkD rest →
      parseNatAux (ds ++ rest) a = (digitsVal a ds, rest) := by
  induction ds with
  | nil =>
    intro rest a _ hrest
    cases rest with
    | nil => rfl
    | cons c t =>
      rw [List.nil_append]
      have hc : c.isDigit = false := hrest
      unfold parseNatAux
      rw [if_neg (by rw [hc]; exact Bool.false_ne_true)]
      rfl
  | cons d t ih =>
    intro rest a hds hrest
    rw [List.cons_append]
    unfold parseNatAux
    rw [if_pos (hds d (by simp))]
    exact ih rest _ (fun c hc => hds c (by simp [hc])) hrest

theorem natDigitsRec_append (n : Nat) :
    ∀ acc, natDigitsRec n acc = digitsOf n ++ acc := by
  induction n using Nat.strong_induction_on with
  | _ n ih =>
    intro acc
    by_cases h : n < 10
    · unfold digitsOf natDigitsRec
      rw [if_pos h, if_pos h]
      rfl
    · unfold digitsOf natDigitsRec
      rw [if_neg h, if_neg h]
      have hlt : n / 10 < n := Nat.div_lt_self (by omega) (by omega)
      rw [ih (n / 10) hlt, ih (n / 10) hlt (Char.ofNat (48 + n % 10) :: [])]
      simp

theorem digitsOf_split (n : Nat) (h : ¬n < 10) :
    digitsOf n = digitsOf (n / 10) ++ [Char.ofNat (48 + n % 10)] := by
  unfold digitsOf
  conv_lhs => unfold natDigitsRec
  rw [if_neg h]
  exact natDigitsRec_append (n / 10) _

theorem digitsOf_cons (n : Nat) :
    ∃ d t, digitsOf n = d :: t ∧ ∀ c ∈ d :: t, c.isDigit = true := by
  induction n using Nat.strong_induction_on with
  | _ n ih =>
    by_cases h : n < 10
    · refine ⟨Char.ofNat (48 + n), [], ?_, ?_⟩
      · unfold digitsOf natDigitsRec
        rw [if_pos h]
      · intro c hc
        rcases List.mem_singleton.mp hc with rfl
        exact (digit_char_facts n h).1
    · obtain ⟨d, t, hd, hall⟩ := ih (n / 10) (Nat.div_lt_self (by omega) (by omega))
      refine ⟨d, t ++ [Char.ofNat (48 + n % 10)], ?_, ?_⟩
      · rw [digitsOf_split n h, hd]
        rfl
      · intro c hc
        rcases List.mem_cons.mp hc with rfl | hc
        · exact hall c (by simp)
        · rcases List.mem_append.mp hc with hc | hc
          · exact hall c (by simp [hc])
          · rcases List.mem_singleton.mp hc with rfl
            exact (digit_char_facts (n % 10) (Nat.mod_lt n (by omega))).1

theorem digitsVal_digitsOf (n : Nat) :
    ∀ a, digitsVal a (digitsOf n) =
      a * 10 ^ (digitsOf n).length + n := by
  induction n using Nat.strong_induction_on with
  | _ n ih =>
    intro a
    by_cases h : n < 10
    · have hd : digitsOf n = [Char.ofNat (48 + n)] := by
        unfold digitsOf natDigitsRec
        rw [if_pos h]
      rw [hd]
      unfold digitsVal
      simp [(digit_char_facts n h).2]
    · rw [digitsOf_split n h]
      unfold digitsVal
      rw [List.foldl_append]
      have ihv := ih (n / 10) (Nat.div_lt_self (by omega) (by omega)) a
      unfold digitsVal at ihv
      rw [ihv]
      simp only [List.foldl_cons, List.foldl_nil, List.length_append,
        List.length_singleton]
      rw [(digit_char_facts (n % 10) (Nat.mod_lt n (by omega))).2]
      have h1 : 48 + n % 10 - 48 = n % 10 := by omega
      rw [h1, pow_succ]
      have h2 : n / 10 * 10 + n % 10 = n := by omega
      have h3 : (a * 10 ^ (digitsOf (n / 10)).length + n / 10) * 10 +
          n % 10 = a * (10 ^ (digitsOf (n / 10)).length * 10) +
          (n / 10 * 10 + n % 10) := by ring
      rw [h3, h2]

theorem hexDigit_decode : ∀ v, v < 16 → hexVal (hexDigitChar v) = some v := by
  decide

theorem hex4Val_hex4 (n : Nat) (h : n < 65536) :
    hex4Val (hexDigitChar (n / 4096 % 16)) (hexDigitChar (n / 256 % 16))
      (hexDigitChar (n / 16 % 16)) (hexDigitChar (n % 16)) = some n := by
  unfold hex4Val
  rw [hexDigit_decode _ (Nat.mod_lt _ (by omega)),
    hexDigit_decode _ (Nat.mod_lt _ (by omega)),
    hexDigit_decode _ (Nat.mod_lt _ (by omega)),
    hexDigit_decode _ (Nat.mod_lt _ (by omega))]
  refine congrArg some ?_
  have h1 : n / 4096 % 16 = n / 4096 := Nat.mod_eq_of_lt (by omega)
  rw [h1]
  omega

theorem char_valid_nat (c : Char) :
    c.toNat < 0xd800 ∨ (0xe000 ≤ c.toNat ∧ c.toNat < 0x110000) := c.valid

theorem escChar_length_pos (c : Char) : 1 ≤ (escChar c).length := by
  unfold escChar
  split_ifs <;> simp [hex4]

theorem length_le_listFlat_esc (l : List Char) :
    l.length ≤ (listFlat escChar l).length := by
  induction l with
  | nil => exact Nat.le_refl 0
  | cons c t ih =>
    rw [show listFlat escChar (c :: t) = escChar c ++ listFlat escChar t
      from rfl, List.length_append, List.length_cons]
    have := escChar_length_pos c
    omega

theorem parseStrAux_plain (f : Nat) (c : Char) (r acc : List Char)
    (h1 : c ≠ '"') (h2 : c ≠ '\\') (h3 : ¬c.toNat < 0x20) :
    parseStrAux (f + 1) (c :: r) acc = parseStrAux f r (acc ++ [c]) := by
  simp only [parseStrAux]
  rw [if_neg h1, if_neg h2, if_neg h3]

theorem parseStrAux_unicode (f n : Nat) (A B C D : Char) (X acc : List Char)
    (hA : hex4Val A B C D = some n) (hn : n < 0xd800 ∨ 0xe000 ≤ n) :
    parseStrAux (f + 1) ('\\' :: 'u' :: A :: B :: C :: D :: X) acc =
      parseStrAux f X (acc ++ [Char.ofNat n]) := by
  conv_lhs => rw [parseStrAux.eq_def]
  dsimp only
  rw [if_neg (show ¬('\\' : Char) = '"' by decide),
    if_pos (show ('\\' : Char) = '\\' from rfl),
    if_pos (show ('u' : Char) = 'u' from rfl), hA]
  dsimp only
  rw [if_pos hn]

theorem parseStrAux_surrogate (f n m : Nat) (A B C D E F G H : Char)
    (X acc : List Char) (hA : hex4Val A B C D = some n)
    (hB : hex4Val E F G H = some m) (hn : 0xd800 ≤ n ∧ n < 0xdc00)
    (hm : 0xdc00 ≤ m ∧ m < 0xe000) :
    parseStrAux (f + 1)
      ('\\' :: 'u' :: A :: B :: C :: D :: '\\' :: 'u' :: E :: F :: G :: H :: X)
      acc =
      parseStrAux f X (acc ++
        [Char.ofNat (0x10000 + (n - 0xd800) * 0x400 + (m - 0xdc00))]) := by
  conv_lhs => rw [parseStrAux.eq_def]
  dsimp only
  rw [if_neg (show ¬('\\' : Char) = '"' by decide),
    if_pos (show ('\\' : Char) = '\\' from rfl),
    if_pos (show ('u' : Char) = 'u' from rfl), hA]
  dsimp only
  rw [if_neg (show ¬(n < 0xd800 ∨ 0xe000 ≤ n) by omega),
    if_pos (show n < 0xdc00 by omega),
    if_pos (show ('\\' : Char) = '\\' ∧ ('u' : Char) = 'u' from ⟨rfl, rfl⟩), hB]
  dsimp only
  rw [if_pos hm]

/-- Scanning the escaped body of a string recovers its characters. -/
theorem parseStr_esc (l : List Char) :
    ∀ fuel acc rest, l.length < fuel →
      parseStrAux fuel (listFlat escChar l ++ '"' :: rest) acc =
        some (String.mk (acc ++ l), rest) := by
  induction l with
  | nil =>
    intro fuel acc rest hfuel
    cases fuel with
    | zero => omega
    | succ f => simp [listFlat, parseStrAux]
  | cons c t ih =>
    intro fuel acc rest hfuel
    cases fuel with
    | zero => omega
    | succ f =>
    have hf : t.length < f := by
      rw [List.length_cons] at hfuel
      omega
    rw [show listFlat escChar (c :: t) = escChar c ++ listFlat escChar t
      from rfl, List.append_assoc]
    by_cases h1 : c = '"'
    · subst h1
      rw [show escChar '"' = ['\\', '"'] from rfl]
      simp only [List.cons_append, List.nil_append]
      rw [show parseStrAux (f + 1) ('\\' :: '"' ::
          (listFlat escChar t ++ '"' :: rest)) acc =
          parseStrAux f (listFlat escChar t ++ '"' :: rest) (acc ++ ['"'])
        from rfl, ih f _ rest hf]
      simp
    · by_cases h2 : c = '\\'
      · subst h2
        rw [show escChar '\\' = ['\\', '\\'] from rfl]
        simp only [List.cons_append, List.nil_append]
        rw [show parseStrAux (f + 1) ('\\' :: '\\' ::
            (listFlat escChar t ++ '"' :: rest)) acc =
            parseStrAux f (listFlat escChar t ++ '"' :: rest) (acc ++ ['\\'])
          from rfl, ih f _ rest hf]
        simp
      · by_cases h3 : c = '\x08'
        · subst h3
          rw [show escChar '\x08' = ['\\', 'b'] from rfl]
          simp only [List.cons_append, List.nil_append]
          rw [show parseStrAux (f + 1) ('\\' :: 'b' ::
              (listFlat escChar t ++ '"' :: rest)) acc =
              parseStrAux f (listFlat escChar t ++ '"' :: rest)
                (acc ++ ['\x08']) from rfl, ih f _ rest hf]
          simp
        · by_cases h4 : c = '\x0c'
          · subst h4
            rw [show escChar '\x0c' = ['\\', 'f'] from rfl]
            simp only [List.cons_append, List.nil_append]
            rw [show parseStrAux (f + 1) ('\\' :: 'f' ::
                (listFlat escChar t ++ '"' :: rest)) acc =
                parseStrAux f (listFlat escChar t ++ '"' :: rest)
                  (acc ++ ['\x0c']) from rfl, ih f _ rest hf]
            simp
          · by_cases h5 : c = '\n'
            · subst h5
              rw [show escChar '\n' = ['\\', 'n'] from rfl]
              simp only [List.cons_append, List.nil_append]
              rw [show parseStrAux (f + 1) ('\\' :: 'n' ::
                  (listFlat escChar t ++ '"' :: rest)) acc =
                  parseStrAux f (listFlat escChar t ++ '"' :: rest)
                    (acc ++ ['\n']) from rfl, ih f _ rest hf]
              simp
            · by_cases h6 : c = '\x0d'
              · subst h6
                rw [show escChar '\x0d' = ['\\', 'r'] from rfl]
                simp only [List.cons_append, List.nil_append]
                rw [show parseStrAux (f + 1) ('\\' :: 'r' ::
                    (listFlat escChar t ++ '"' :: rest)) acc =
                    parseStrAux f (listFlat escChar t ++ '"' :: rest)
                      (acc ++ ['\x0d']) from rfl, ih f _ rest hf]
                simp
              · by_cases h7 : c = '\t'
                · subst h7
                  rw [show escChar '\t' = ['\\', 't'] from rfl]
                  simp only [List.cons_append, List.nil_append]
                  rw [show parseStrAux (f + 1) ('\\' :: 't' ::
                      (listFlat escChar t ++ '"' :: rest)) acc =
                      parseStrAux f (listFlat escChar t ++ '"' :: rest)
                        (acc ++ ['\t']) from rfl, ih f _ rest hf]
                  simp
                · by_cases h8 : 0x20 ≤ c.toNat ∧ c.toNat ≤ 0x7e
                  · have hesc : escChar c = [c] := by
                      unfold escChar
                      rw [if_neg h1, if_neg h2, if_neg h3, if_neg h4,
                        if_neg h5, if_neg h6, if_neg h7, if_pos h8]
                    rw [hesc, List.singleton_append,
                      parseStrAux_plain f c _ acc h1 h2 (by omega),
                      ih f _ rest hf]
                    simp
                  · by_cases h9 : c.toNat < 0x10000
                    · have hesc : escChar c = '\\' :: 'u' :: hex4 c.toNat := by
                        unfold escChar
                        rw [if_neg h1, if_neg h2, if_neg h3, if_neg h4,
                          if_neg h5, if_neg h6, if_neg h7, if_neg h8,
                          if_pos h9]
                      have hcond : c.toNat < 0xd800 ∨ 0xe000 ≤ c.toNat := by
                        rcases char_valid_nat c with h | h
                        · exact Or.inl h
                        · exact Or.inr h.1
                      rw [hesc]
                      unfold hex4
                      simp only [List.cons_append, List.nil_append]
                      rw [parseStrAux_unicode f c.toNat _ _ _ _ _ acc
                        (hex4Val_hex4 c.toNat (by omega)) hcond]
                      rw [Char.ofNat_toNat, ih f _ rest hf]
                      simp
                    · have hbig : 0x10000 ≤ c.toNat ∧ c.toNat < 0x110000 := by
                        rcases char_valid_nat c with h | h
                        · omega
                        · omega
                      have hesc : escChar c =
                          ('\\' :: 'u' ::
                            hex4 (0xd800 + (c.toNat - 0x10000) / 0x400)) ++
                          ('\\' :: 'u' ::
                            hex4 (0xdc00 + (c.toNat - 0x10000) % 0x400)) := by
                        unfold escChar
                        rw [if_neg h1, if_neg h2, if_neg h3, if_neg h4,
                          if_neg h5, if_neg h6, if_neg h7, if_neg h8,
                          if_neg h9]
                      have hq : (c.toNat - 0x10000) / 0x400 < 0x400 := by
                        omega
                      have hr : (c.toNat - 0x10000) % 0x400 < 0x400 :=
                        Nat.mod_lt _ (by omega)
                      rw [hesc]
                      unfold hex4
                      simp only [List.cons_append, List.nil_append,
                        List.append_assoc]
                      rw [parseStrAux_surrogate f
                        (0xd800 + (c.toNat - 0x10000) / 0x400)
                        (0xdc00 + (c.toNat - 0x10000) % 0x400)
                        _ _ _ _ _ _ _ _ _ acc
                        (hex4Val_hex4 _ (by omega)) (hex4Val_hex4 _ (by omega))
                        (by constructor <;> omega) (by constructor <;> omega)]
                      rw [show 0x10000 +
                          (0xd800 + (c.toNat - 0x10000) / 0x400 - 0xd800) *
                            0x400 +
                          (0xdc00 + (c.toNat - 0x10000) % 0x400 - 0xdc00) =
                          c.toNat from by omega]
                      rw [Char.ofNat_toNat, ih f _ rest hf]
                      simp

theorem parseVal_ws (fuel : Nat) (W cs : List Char)
    (hW : ∀ c ∈ W, isWs c = true) :
    parseVal fuel (W ++ cs) = parseVal fuel cs := by
  cases fuel with
  | zero => rfl
  | succ f =>
    simp only [parseVal]
    rw [skipWs_append_ws W cs hW]

theorem parseItems_ws (fuel : Nat) (W cs : List Char) (acc : List JVal)
    (hW : ∀ c ∈ W, isWs c = true) :
    parseItems fuel (W ++ cs) acc = parseItems fuel cs acc := by
  cases fuel with
  | zero => rfl
  | succ f =>
    simp only [parseItems]
    rw [parseVal_ws f W cs hW]

theorem parseFields_ws (fuel : Nat) (W cs : List Char)
    (acc : List (String × JVal)) (hW : ∀ c ∈ W, isWs c = true) :
    parseFields fuel (W ++ cs) acc = parseFields fuel cs acc := by
  cases fuel with
  | zero => rfl
  | succ f =>
    simp only [parseFields]
    rw [skipWs_append_ws W cs hW]

theorem restOkD_ws_close (ws rest : List Char)
    (hws : ∀ c ∈ ws, isWs c = true) (b : Char) (hb : b.isDigit = false) :
    restOkD (ws ++ b :: rest) := by
  cases ws with
  | nil => exact hb
  | cons c w => exact ws_not_digit c (hws c (by simp))

theorem parseVal_quote (f : Nat) (X : List Char) (s : String) (r2 : List Char)
    (h : parseStrAux (X.length + 1) X [] = some (s, r2)) :
    parseVal (f + 1) ('"' :: X) = some (.str s, r2) := by
  simp only [parseVal]
  rw [skipWs_not_ws '"' X (by decide)]
  dsimp only
  rw [if_neg (show ¬('"' : Char) = 'n' by decide),
    if_neg (show ¬('"' : Char) = 't' by decide),
    if_neg (show ¬('"' : Char) = 'f' by decide),
    if_pos (show ('"' : Char) = '"' from rfl), h]

theorem parseVal_digit (f : Nat) (d : Char) (X : List Char)
    (hd : d.isDigit = true) :
    parseVal (f + 1) (d :: X) =
      some (.num (Int.ofNat (parseNatAux (d :: X) 0).1),
        (parseNatAux (d :: X) 0).2) := by
  simp only [parseVal]
  rw [skipWs_not_ws d X (isDigit_not_ws d hd)]
  dsimp only
  rw [if_neg (isDigit_ne d 'n' hd (by decide)),
    if_neg (isDigit_ne d 't' hd (by decide)),
    if_neg (isDigit_ne d 'f' hd (by decide)),
    if_neg (isDigit_ne d '"' hd (by decide)),
    if_neg (isDigit_ne d '-' hd (by decide)),
    if_pos hd]

theorem parseVal_negnum (f : Nat) (d : Char) (X : List Char)
    (hd : d.isDigit = true) :
    parseVal (f + 1) ('-' :: d :: X) =
      some (.num (-(Int.ofNat (parseNatAux (d :: X) 0).1)),
        (parseNatAux (d :: X) 0).2) := by
  simp only [parseVal]
  rw [skipWs_not_ws '-' (d :: X) (by decide)]
  dsimp only
  rw [if_neg (show ¬('-' : Char) = 'n' by decide),
    if_neg (show ¬('-' : Char) = 't' by decide),
    if_neg (show ¬('-' : Char) = 'f' by decide),
    if_neg (show ¬('-' : Char) = '"' by decide),
    if_pos (show ('-' : Char) = '-' from rfl)]
  rw [if_pos hd]

theorem parseVal_lbracket (f : Nat) (X : List Char) (c0 : Char)
    (t0 : List Char) (hX : skipWs X = c0 :: t0) (hc0 : c0 ≠ ']')
    (l : List JVal) (r2 : List Char)
    (h : parseItems f (c0 :: t0) [] = some (l, r2)) :
    parseVal (f + 1) ('[' :: X) = some (.arr l, r2) := by
  simp only [parseVal]
  rw [skipWs_not_ws '[' X (by decide)]
  dsimp only
  rw [if_neg (show ¬('[' : Char) = 'n' by decide),
    if_neg (show ¬('[' : Char) = 't' by decide),
    if_neg (show ¬('[' : Char) = 'f' by decide),
    if_neg (show ¬('[' : Char) = '"' by decide),
    if_neg (show ¬('[' : Char) = '-' by decide),
    if_neg (show ¬('[' : Char).isDigit = true by decide),
    if_pos (show ('[' : Char) = '[' from rfl), hX]
  rw [if_neg (show ¬((c0 :: t0).head? = some ']') by simp [hc0]), h]

theorem parseVal_lbrace (f : Nat) (X : List Char) (c0 : Char)
    (t0 : List Char) (hX : skipWs X = c0 :: t0) (hc0 : c0 ≠ '\x7d')
    (l : List (String × JVal)) (r2 : List Char)
    (h : parseFields f (c0 :: t0) [] = some (l, r2)) :
    parseVal (f + 1) ('\x7b' :: X) = some (.obj l, r2) := by
  simp only [parseVal]
  rw [skipWs_not_ws '\x7b' X (by decide)]
  dsimp only
  rw [if_neg (show ¬('\x7b' : Char) = 'n' by decide),
    if_neg (show ¬('\x7b' : Char) = 't' by decide),
    if_neg (show ¬('\x7b' : Char) = 'f' by decide),
    if_neg (show ¬('\x7b' : Char) = '"' by decide),
    if_neg (show ¬('\x7b' : Char) = '-' by decide),
    if_neg (show ¬('\x7b' : Char).isDigit = true by decide),
    if_neg (show ¬('\x7b' : Char) = '[' by decide),
    if_pos (show ('\x7b' : Char) = '\x7b' from rfl), hX]
  rw [if_neg (show ¬((c0 :: t0).head? = some '\x7d') by simp [hc0]), h]

theorem parseItems_step (f : Nat) (cs : List Char) (acc : List JVal)
    (v : JVal) (r : List Char) (hv : parseVal f cs = some (v, r)) :
    parseItems (f + 1) cs acc =
      (if (skipWs r).head? = some ',' then
        parseItems f (skipWs r).tail (acc ++ [v])
      else if (skipWs r).head? = some ']' then
        some (acc ++ [v], (skipWs r).tail)
      else none) := by
  simp only [parseItems]
  rw [hv]

theorem parseFields_step (f : Nat) (Y : List Char)
    (acc : List (String × JVal)) (k : String) (r1 : List Char)
    (h : parseStrAux (Y.length + 1) Y [] = some (k, r1))
    (hr2 : (skipWs r1).head? = some ':') (v : JVal) (r3 : List Char)
    (hv : parseVal f (skipWs r1).tail = some (v, r3)) :
    parseFields (f + 1) ('"' :: Y) acc =
      (if (skipWs r3).head? = some ',' then
        parseFields f (skipWs r3).tail (acc ++ [(k, v)])
      else if (skipWs r3).head? = some '\x7d' then
        some (acc ++ [(k, v)], (skipWs r3).tail)
      else none) := by
  simp only [parseFields]
  rw [skipWs_not_ws '"' Y (by decide)]
  dsimp only
  rw [if_pos (show ('"' : Char) = '"' from rfl), h]
  dsimp only
  rw [if_pos hr2, hv]

theorem dumpC_null (lvl : Nat) : dumpC lvl .null = ['n', 'u', 'l', 'l'] := by
  simp [dumpC]

theorem dumpC_true (lvl : Nat) :
    dumpC lvl (.bool true) = ['t', 'r', 'u', 'e'] := by
  simp [dumpC]

theorem dumpC_false (lvl : Nat) :
    dumpC lvl (.bool false) = ['f', 'a', 'l', 's', 'e'] := by
  simp [dumpC]

theorem intChars_length_pos (n : Int) : 1 ≤ (intChars n).length := by
  unfold intChars
  split_ifs
  · simp
  · obtain ⟨d, t, hd, _⟩ := digitsOf_cons n.toNat
    rw [hd]
    simp

theorem dumpC_head (lvl : Nat) (v : JVal) :
    ∃ c t, dumpC lvl v = c :: t ∧ isWs c = false ∧ c ≠ ']' ∧ c ≠ '\x7d' := by
  cases v with
  | null =>
    exact ⟨'n', ['u', 'l', 'l'], dumpC_null lvl, by decide, by decide, by decide⟩
  | bool b =>
    cases b with
    | true =>
      exact ⟨'t', ['r', 'u', 'e'], dumpC_true lvl, by decide, by decide, by decide⟩
    | false =>
      exact ⟨'f', ['a', 'l', 's', 'e'], dumpC_false lvl, by decide, by decide,
        by decide⟩
  | num n =>
    by_cases hn : n < 0
    · exact ⟨'-', digitsOf n.natAbs, by simp [dumpC, intChars, hn], by decide,
        by decide, by decide⟩
    · obtain ⟨d, t, hd, hall⟩ := digitsOf_cons n.toNat
      have hdig : d.isDigit = true := hall d (by simp)
      refine ⟨d, t, ?_, isDigit_not_ws d hdig, isDigit_ne d ']' hdig (by decide),
        isDigit_ne d '\x7d' hdig (by decide)⟩
      simp [dumpC, intChars, hn, hd]
  | str s =>
    exact ⟨'"', listFlat escChar s.data ++ ['"'], by simp [dumpC, quoteChars],
      by decide, by decide, by decide⟩
  | arr l =>
    cases l with
    | nil => exact ⟨'[', [']'], by simp [dumpC], by decide, by decide, by decide⟩
    | cons x xs =>
      exact ⟨'[', '\n' :: (jpad (lvl + 1) ++ (dumpBody (lvl + 1) x xs ++
        '\n' :: (jpad lvl ++ [']']))), by simp [dumpC], by decide, by decide,
        by decide⟩
  | obj l =>
    cases l with
    | nil =>
      exact ⟨'\x7b', ['\x7d'], by simp [dumpC], by decide, by decide, by decide⟩
    | cons g gs =>
      exact ⟨'\x7b', '\n' :: (jpad (lvl + 1) ++ (dumpFields (lvl + 1) g gs ++
        '\n' :: (jpad lvl ++ ['\x7d']))), by simp [dumpC], by decide, by decide,
        by decide⟩

theorem dumpBody_head (lvl : Nat) (x : JVal) (l : List JVal) :
    ∃ c t, dumpBody lvl x l = c :: t ∧ isWs c = false ∧ c ≠ ']' ∧ c ≠ '\x7d' := by
  obtain ⟨c, t, hd, h1, h2, h3⟩ := dumpC_head lvl x
  cases l with
  | nil => exact ⟨c, t, by simp [dumpBody, hd], h1, h2, h3⟩
  | cons y ys =>
    exact ⟨c, t ++ ',' :: '\n' :: (jpad lvl ++ dumpBody lvl y ys),
      by simp [dumpBody, hd], h1, h2, h3⟩

theorem dumpFields_head (lvl : Nat) (f : String × JVal)
    (l : List (String × JVal)) : ∃ t, dumpFields lvl f l = '"' :: t := by
  cases l with
  | nil =>
    exact ⟨listFlat escChar f.1.data ++ '"' :: ':' :: ' ' :: dumpC lvl f.2,
      by simp [dumpFields, quoteChars]⟩
  | cons g gs =>
    exact ⟨listFlat escChar f.1.data ++ '"' :: ':' :: ' ' ::
      (dumpC lvl f.2 ++ ',' :: '\n' :: (jpad lvl ++ dumpFields lvl g gs)),
      by simp [dumpFields, quoteChars]⟩

mutual
theorem fuelFor_le_dumpC (lvl : Nat) (v : JVal) :
    fuelFor v ≤ (dumpC lvl v).length := by
  cases v with
  | null =>
    simp only [fuelFor, dumpC_null, List.length_cons, List.length_nil]; omega
  | bool b =>
    cases b with
    | true =>
      simp only [fuelFor, dumpC_true, List.length_cons, List.length_nil]; omega
    | false =>
      simp only [fuelFor, dumpC_false, List.length_cons, List.length_nil]; omega
  | num n =>
    have h := intChars_length_pos n
    simp only [fuelFor, dumpC]
    omega
  | str s =>
    simp only [fuelFor, dumpC, quoteChars, List.length_cons]
    omega
  | arr l =>
    cases l with
    | nil =>
      simp only [fuelFor, fuelItems, dumpC, List.length_cons, List.length_nil]
      omega
    | cons x xs =>
      have h := fuelItems_le_dumpBody (lvl + 1) x xs
      simp only [fuelFor, dumpC, List.length_cons, List.length_append,
        List.length_nil, jpad, List.length_replicate]
      omega
  | obj l =>
    cases l with
    | nil =>
      simp only [fuelFor, fuelFields, dumpC, List.length_cons, List.length_nil]
      omega
    | cons g gs =>
      have h := fuelFields_le_dumpFields (lvl + 1) g gs
      simp only [fuelFor, dumpC, List.length_cons, List.length_append,
        List.length_nil, jpad, List.length_replicate]
      omega
termination_by sizeOf v
decreasing_by all_goals simp_wf; all_goals omega

theorem fuelItems_le_dumpBody (lvl : Nat) (x : JVal) (l : List JVal) :
    fuelItems (x :: l) ≤ (dumpBody lvl x l).length + 2 := by
  cases l with
  | nil =>
    have h := fuelFor_le_dumpC lvl x
    simp only [fuelItems, dumpBody]
    omega
  | cons y ys =>
    have h1 := fuelFor_le_dumpC lvl x
    have h2 := fuelItems_le_dumpBody lvl y ys
    simp only [fuelItems] at h2 ⊢
    simp only [dumpBody, List.length_append, List.length_cons,
      jpad, List.length_replicate]
    omega
termination_by sizeOf x + sizeOf l
decreasing_by all_goals simp_wf; all_goals omega

theorem fuelFields_le_dumpFields (lvl : Nat) (f : String × JVal)
    (l : List (String × JVal)) :
    fuelFields (f :: l) ≤ (dumpFields lvl f l).length + 2 := by
  cases l with
  | nil =>
    have h := fuelFor_le_dumpC lvl f.2
    simp only [fuelFields, dumpFields, List.length_append, List.length_cons]
    omega
  | cons g gs =>
    have h1 := fuelFor_le_dumpC lvl f.2
    have h2 := fuelFields_le_dumpFields lvl g gs
    simp only [fuelFields] at h2 ⊢
    simp only [dumpFields, List.length_append, List.length_cons,
      jpad, List.length_replicate]
    omega
termination_by sizeOf f + sizeOf l
decreasing_by
  all_goals simp_wf
  all_goals first
  | omega
  | (have hf := sizeOf_snd_lt f; omega)
end

theorem string_mk_data (s : String) : String.mk s.data = s := by
  cases s
  rfl

theorem cons_nl_jpad_ws (lvl : Nat) :
    ∀ c ∈ '\n' :: jpad lvl, isWs c = true := by
  intro c hc
  rcases List.mem_cons.mp hc with rfl | h
  · rfl
  · exact jpad_ws lvl c h

theorem restOkD_cons (c : Char) (r : List Char) (h : c.isDigit = false) :
    restOkD (c :: r) := h

theorem space_ws : ∀ c ∈ [' '], isWs c = true := by decide

mutual
/-- Parsing the printed form of a value, followed by a suffix that does
not begin with a digit, returns the value and the suffix untouched. -/
theorem parse_dumpC (v : JVal) (lvl fuel : Nat) (rest : List Char)
    (hfuel : fuelFor v ≤ fuel) (hrest : restOkD rest) :
    parseVal fuel (dumpC lvl v ++ rest) = some (v, rest) := by
  cases fuel with
  | zero => cases v <;> (simp only [fuelFor] at hfuel; omega)
  | succ f =>
    cases v with
    | null =>
      rw [dumpC_null]
      rfl
    | bool b =>
      cases b with
      | true =>
        rw [dumpC_true]
        rfl
      | false =>
        rw [dumpC_false]
        rfl
    | num n =>
      by_cases hn : n < 0
      · obtain ⟨d, t, hd, hall⟩ := digitsOf_cons n.natAbs
        rw [show dumpC lvl (.num n) = '-' :: digitsOf n.natAbs from by
          simp [dumpC, intChars, hn], hd]
        simp only [List.cons_append]
        rw [parseVal_negnum f d (t ++ rest) (hall d (by simp))]
        have hp : parseNatAux (d :: (t ++ rest)) 0 = (digitsVal 0 (d :: t), rest) := by
          have h2 := parseNatAux_digits (d :: t) rest 0 hall hrest
          simpa using h2
        rw [hp]
        have hv : digitsVal 0 (d :: t) = n.natAbs := by
          have h3 := digitsVal_digitsOf n.natAbs 0
          rw [hd] at h3
          simpa using h3
        rw [hv]
        have hneg : -(Int.ofNat n.natAbs) = n := by
          simp only [Int.ofNat_eq_coe]
          omega
        rw [hneg]
      · obtain ⟨d, t, hd, hall⟩ := digitsOf_cons n.toNat
        rw [show dumpC lvl (.num n) = digitsOf n.toNat from by
          simp [dumpC, intChars, hn], hd]
        simp only [List.cons_append]
        rw [parseVal_digit f d (t ++ rest) (hall d (by simp))]
        have hp : parseNatAux (d :: (t ++ rest)) 0 = (digitsVal 0 (d :: t), rest) := by
          have h2 := parseNatAux_digits (d :: t) rest 0 hall hrest
          simpa using h2
        rw [hp]
        have hv : digitsVal 0 (d :: t) = n.toNat := by
          have h3 := digitsVal_digitsOf n.toNat 0
          rw [hd] at h3
          simpa using h3
        rw [hv]
        have hpos : Int.ofNat n.toNat = n := by
          simp only [Int.ofNat_eq_coe]
          omega
        rw [hpos]
    | str s =>
      rw [show dumpC lvl (.str s) ++ rest =
        '"' :: (listFlat escChar s.data ++ '"' :: rest) from by
          simp [dumpC, quoteChars]]
      have hlen : s.data.length < (listFlat escChar s.data ++ '"' :: rest).length + 1 := by
        have h1 := length_le_listFlat_esc s.data
        simp only [List.length_append, List.length_cons]
        omega
      have hq : parseStrAux ((listFlat escChar s.data ++ '"' :: rest).length + 1)
          (listFlat escChar s.data ++ '"' :: rest) [] =
          some (String.mk s.data, rest) := by
        simpa using parseStr_esc s.data
          ((listFlat escChar s.data ++ '"' :: rest).length + 1) [] rest hlen
      rw [parseVal_quote f _ (String.mk s.data) rest hq]
    | arr l =>
      cases l with
      | nil =>
        rw [show dumpC lvl (.arr []) = ['[', ']'] from by simp [dumpC]]
        rfl
      | cons x xs =>
        obtain ⟨c, t, hd, hws1, hne1, hne2⟩ := dumpBody_head (lvl + 1) x xs
        rw [show dumpC lvl (.arr (x :: xs)) ++ rest =
          '[' :: (('\n' :: jpad (lvl + 1)) ++ (dumpBody (lvl + 1) x xs ++
            (('\n' :: jpad lvl) ++ ']' :: rest))) from by simp [dumpC]]
        have hitems : parseItems f (c :: (t ++ (('\n' :: jpad lvl) ++ ']' :: rest))) [] =
            some (x :: xs, rest) := by
          have h4 := parse_items x xs (lvl + 1) f [] ('\n' :: jpad lvl) rest
            (cons_nl_jpad_ws lvl)
            (by simp only [fuelFor] at hfuel; omega)
          rw [hd] at h4
          simpa using h4
        refine parseVal_lbracket f _ c (t ++ (('\n' :: jpad lvl) ++ ']' :: rest))
          ?_ hne1 (x :: xs) rest hitems
        rw [skipWs_append_ws _ _ (cons_nl_jpad_ws (lvl + 1)), hd,
          List.cons_append, skipWs_not_ws c _ hws1]
    | obj l =>
      cases l with
      | nil =>
        rw [show dumpC lvl (.obj []) = ['\x7b', '\x7d'] from by simp [dumpC]]
        rfl
      | cons g gs =>
        obtain ⟨tq, hq⟩ := dumpFields_head (lvl + 1) g gs
        rw [show dumpC lvl (.obj (g :: gs)) ++ rest =
          '\x7b' :: (('\n' :: jpad (lvl + 1)) ++ (dumpFields (lvl + 1) g gs ++
            (('\n' :: jpad lvl) ++ '\x7d' :: rest))) from by simp [dumpC]]
        have hflds : parseFields f ('"' :: (tq ++ (('\n' :: jpad lvl) ++ '\x7d' :: rest))) [] =
            some (g :: gs, rest) := by
          have h4 := parse_fields g gs (lvl + 1) f [] ('\n' :: jpad lvl) rest
            (cons_nl_jpad_ws lvl)
            (by simp only [fuelFor] at hfuel; omega)
          rw [hq] at h4
          simpa using h4
        refine parseVal_lbrace f _ '"' (tq ++ (('\n' :: jpad lvl) ++ '\x7d' :: rest))
          ?_ (by decide) (g :: gs) rest hflds
        rw [skipWs_append_ws _ _ (cons_nl_jpad_ws (lvl + 1)), hq,
          List.cons_append, skipWs_not_ws '"' _ (by decide)]
termination_by fuel
decreasing_by all_goals simp_wf; all_goals omega

/-- Parsing a printed comma-separated item list followed by optional
whitespace and the closing bracket appends the items to the accumulator. -/
theorem parse_items (x : JVal) (l : List JVal) (lvl fuel : Nat)
    (acc : List JVal) (ws rest : List Char)
    (hws : ∀ c ∈ ws, isWs c = true) (hfuel : fuelItems (x :: l) ≤ fuel) :
    parseItems fuel (dumpBody lvl x l ++ (ws ++ ']' :: rest)) acc =
      some (acc ++ (x :: l), rest) := by
  cases fuel with
  | zero => simp only [fuelItems] at hfuel; omega
  | succ f =>
    cases l with
    | nil =>
      rw [show dumpBody lvl x [] = dumpC lvl x from by simp [dumpBody]]
      have hv := parse_dumpC x lvl f (ws ++ ']' :: rest)
        (by simp only [fuelItems] at hfuel; omega)
        (restOkD_ws_close ws rest hws ']' (by decide))
      rw [parseItems_step f _ acc x _ hv]
      rw [skipWs_append_ws ws _ hws, skipWs_not_ws ']' rest (by decide)]
      rw [if_neg (show ¬(((']' :: rest).head?) = some ',') by simp),
        if_pos (show ((']' :: rest).head?) = some ']' from rfl)]
      simp
    | cons y ys =>
      rw [show dumpBody lvl x (y :: ys) ++ (ws ++ ']' :: rest) =
        dumpC lvl x ++ (',' :: '\n' :: (jpad lvl ++ (dumpBody lvl y ys ++
          (ws ++ ']' :: rest)))) from by simp [dumpBody]]
      have hv := parse_dumpC x lvl f
        (',' :: '\n' :: (jpad lvl ++ (dumpBody lvl y ys ++ (ws ++ ']' :: rest))))
        (by simp only [fuelItems] at hfuel; omega)
        (restOkD_cons ',' _ (by decide))
      rw [parseItems_step f _ acc x _ hv]
      rw [skipWs_not_ws ',' _ (by decide)]
      rw [if_pos (show ((',' :: '\n' :: (jpad lvl ++ (dumpBody lvl y ys ++
        (ws ++ ']' :: rest)))).head?) = some ',' from rfl)]
      rw [show (',' :: '\n' :: (jpad lvl ++ (dumpBody lvl y ys ++
        (ws ++ ']' :: rest)))).tail = ('\n' :: jpad lvl) ++
          (dumpBody lvl y ys ++ (ws ++ ']' :: rest)) from by simp]
      rw [parseItems_ws f _ _ _ (cons_nl_jpad_ws lvl)]
      rw [parse_items y ys lvl f (acc ++ [x]) ws rest hws
        (by simp only [fuelItems] at hfuel ⊢; omega)]
      simp
termination_by fuel
decreasing_by all_goals simp_wf; all_goals omega

/-- Parsing a printed comma-separated field list followed by optional
whitespace and the closing brace appends the fields to the accumulator. -/
theorem parse_fields (g : String × JVal) (l : List (String × JVal))
    (lvl fuel : Nat) (acc : List (String × JVal)) (ws rest : List Char)
    (hws : ∀ c ∈ ws, isWs c = true) (hfuel : fuelFields (g :: l) ≤ fuel) :
    parseFields fuel (dumpFields lvl g l ++ (ws ++ '\x7d' :: rest)) acc =
      some (acc ++ (g :: l), rest) := by
  cases fuel with
  | zero => simp only [fuelFields] at hfuel; omega
  | succ f =>
    cases l with
    | nil =>
      rw [show dumpFields lvl g [] ++ (ws ++ '\x7d' :: rest) =
        '"' :: (listFlat escChar g.1.data ++ '"' :: (':' :: ' ' ::
          (dumpC lvl g.2 ++ (ws ++ '\x7d' :: rest)))) from by
            simp [dumpFields, quoteChars]]
      have hlen : g.1.data.length <
          (listFlat escChar g.1.data ++ '"' :: (':' :: ' ' ::
            (dumpC lvl g.2 ++ (ws ++ '\x7d' :: rest)))).length + 1 := by
        have h1 := length_le_listFlat_esc g.1.data
        simp only [List.length_append, List.length_cons]
        omega
      have hstr : parseStrAux
          ((listFlat escChar g.1.data ++ '"' :: (':' :: ' ' ::
            (dumpC lvl g.2 ++ (ws ++ '\x7d' :: rest)))).length + 1)
          (listFlat escChar g.1.data ++ '"' :: (':' :: ' ' ::
            (dumpC lvl g.2 ++ (ws ++ '\x7d' :: rest)))) [] =
          some (g.1, ':' :: ' ' :: (dumpC lvl g.2 ++ (ws ++ '\x7d' :: rest))) := by
        rw [parseStr_esc g.1.data _ [] _ hlen]
        simp [string_mk_data]
      have hv : parseVal f (skipWs (':' :: ' ' ::
          (dumpC lvl g.2 ++ (ws ++ '\x7d' :: rest)))).tail =
          some (g.2, ws ++ '\x7d' :: rest) := by
        rw [skipWs_not_ws ':' _ (by decide)]
        rw [show (':' :: ' ' :: (dumpC lvl g.2 ++ (ws ++ '\x7d' :: rest))).tail =
          [' '] ++ (dumpC lvl g.2 ++ (ws ++ '\x7d' :: rest)) from rfl]
        rw [parseVal_ws f [' '] _ space_ws]
        exact parse_dumpC g.2 lvl f (ws ++ '\x7d' :: rest)
          (by simp only [fuelFields] at hfuel; omega)
          (restOkD_ws_close ws rest hws '\x7d' (by decide))
      rw [parseFields_step f _ acc g.1 _ hstr
        (by rw [skipWs_not_ws ':' _ (by decide)]; rfl) g.2 _ hv]
      rw [skipWs_append_ws ws _ hws, skipWs_not_ws '\x7d' rest (by decide)]
      rw [if_neg (show ¬((('\x7d' :: rest).head?) = some ',') by simp),
        if_pos (show (('\x7d' :: rest).head?) = some '\x7d' from rfl)]
      simp
    | cons g2 gs =>
      rw [show dumpFields lvl g (g2 :: gs) ++ (ws ++ '\x7d' :: rest) =
        '"' :: (listFlat escChar g.1.data ++ '"' :: (':' :: ' ' ::
          (dumpC lvl g.2 ++ (',' :: '\n' :: (jpad lvl ++
            (dumpFields lvl g2 gs ++ (ws ++ '\x7d' :: rest))))))) from by
              simp [dumpFields, quoteChars]]
      have hlen : g.1.data.length <
          (listFlat escChar g.1.data ++ '"' :: (':' :: ' ' ::
            (dumpC lvl g.2 ++ (',' :: '\n' :: (jpad lvl ++
              (dumpFields lvl g2 gs ++ (ws ++ '\x7d' :: rest))))))).length + 1 := by
        have h1 := length_le_listFlat_esc g.1.data
        simp only [List.length_append, List.length_cons]
        omega
      have hstr : parseStrAux
          ((listFlat escChar g.1.data ++ '"' :: (':' :: ' ' ::
            (dumpC lvl g.2 ++ (',' :: '\n' :: (jpad lvl ++
              (dumpFields lvl g2 gs ++ (ws ++ '\x7d' :: rest))))))).length + 1)
          (listFlat escChar g.1.data ++ '"' :: (':' :: ' ' ::
            (dumpC lvl g.2 ++ (',' :: '\n' :: (jpad lvl ++
              (dumpFields lvl g2 gs ++ (ws ++ '\x7d' :: rest))))))) [] =
          some (g.1, ':' :: ' ' :: (dumpC lvl g.2 ++ (',' :: '\n' ::
            (jpad lvl ++ (dumpFields lvl g2 gs ++ (ws ++ '\x7d' :: rest)))))) := by
        rw [parseStr_esc g.1.data _ [] _ hlen]
        simp [string_mk_data]
      have hv : parseVal f (skipWs (':' :: ' ' ::
          (dumpC lvl g.2 ++ (',' :: '\n' :: (jpad lvl ++
            (dumpFields lvl g2 gs ++ (ws ++ '\x7d' :: rest))))))).tail =
          some (g.2, ',' :: '\n' :: (jpad lvl ++
            (dumpFields lvl g2 gs ++ (ws ++ '\x7d' :: rest)))) := by
        rw [skipWs_not_ws ':' _ (by decide)]
        rw [show (':' :: ' ' :: (dumpC lvl g.2 ++ (',' :: '\n' :: (jpad lvl ++
          (dumpFields lvl g2 gs ++ (ws ++ '\x7d' :: rest)))))).tail =
          [' '] ++ (dumpC lvl g.2 ++ (',' :: '\n' :: (jpad lvl ++
            (dumpFields lvl g2 gs ++ (ws ++ '\x7d' :: rest))))) from rfl]
        rw [parseVal_ws f [' '] _ space_ws]
        exact parse_dumpC g.2 lvl f _
          (by simp only [fuelFields] at hfuel; omega)
          (restOkD_cons ',' _ (by decide))
      rw [parseFields_step f _ acc g.1 _ hstr
        (by rw [skipWs_not_ws ':' _ (by decide)]; rfl) g.2 _ hv]
      rw [skipWs_not_ws ',' _ (by decide)]
      rw [if_pos (show ((',' :: '\n' :: (jpad lvl ++ (dumpFields lvl g2 gs ++
        (ws ++ '\x7d' :: rest)))).head?) = some ',' from rfl)]
      rw [show (',' :: '\n' :: (jpad lvl ++ (dumpFields lvl g2 gs ++
        (ws ++ '\x7d' :: rest)))).tail = ('\n' :: jpad lvl) ++
          (dumpFields lvl g2 gs ++ (ws ++ '\x7d' :: rest)) from by simp]
      rw [parseFields_ws f _ _ _ (cons_nl_jpad_ws lvl)]
      rw [parse_fields g2 gs lvl f (acc ++ [(g.1, g.2)]) ws rest hws
        (by simp only [fuelFields] at hfuel ⊢; omega)]
      simp
termination_by fuel
decreasing_by all_goals simp_wf; all_goals omega
end

theorem json_roundtrip (v : JVal) : pyJsonLoads (pyJsonDumps v) = some v := by
  have h1 : fuelFor v ≤ (dumpC 0 v).length + 1 :=
    Nat.le_trans (fuelFor_le_dumpC 0 v) (Nat.le_succ _)
  have h2 := parse_dumpC v 0 ((dumpC 0 v).length + 1) [] h1 trivial
  rw [List.append_nil] at h2
  unfold pyJsonLoads pyJsonDumps
  dsimp only
  rw [h2]
  rfl

/-- C6: with format `"json"` both renderers print exactly the input list
serialized by `json.dumps(..., indent=2)` in its original order, and
parsing that printed output returns a list structurally equal to the
input (round-trip). -/
theorem c6_json_roundtrip (vs issues : List JVal) :
    display_versions (.arr vs) "json" = .ok [pyJsonDumps (.arr vs)] ∧
    display_issues (.arr issues) "json" = .ok [pyJsonDumps (.arr issues)] ∧
    pyJsonLoads (pyJsonDumps (.arr vs)) = some (.arr vs) ∧
    pyJsonLoads (pyJsonDumps (.arr issues)) = some (.arr issues) :=
  ⟨rfl, rfl, json_roundtrip (.arr vs), json_roundtrip (.arr issues)⟩

end JiraRel
